import Mathlib

/-!
Verification development for the Azure OpenAI adapter of the gemini-cli fork.

The definitions below are a shallow embedding of the TypeScript sources:
`azureOpenaiContentGenerator.ts` (message/schema/response conversion,
streaming delta reassembly, token counting), `jsonUtils.ts` (tolerant JSON
extraction) and `auth.ts` (`validateAuthMethod`).  JavaScript strings are
modelled as Lean `String`, JSON values by the inductive `Gem.Json`,
`JSON.parse` by a fuel-based recursive-descent parser that implements the
strict JSON grammar, and `JSON.stringify` by a structural serializer.
JavaScript truthiness tests on optional strings and JSON values are made
explicit.  `Date.now()` is threaded as an explicit `now : Nat` parameter
and `process.env` as an explicit `String → Option String` map.
-/

namespace Gem

/-- JSON values as produced by `JSON.parse`.  Numbers keep their source
lexeme (the adapter never computes with them, it only transports them),
which avoids modelling floating-point rounding. -/
inductive Json where
  | null : Json
  | bool (b : Bool) : Json
  | num (lexeme : String) : Json
  | str (s : String) : Json
  | arr (items : List Json) : Json
  | obj (members : List (String × Json)) : Json
  deriving Repr, Inhabited

/-- Opening brace character, written by code point to keep brace characters
out of the source text. -/
def lbraceC : Char := Char.ofNat 123

/-- Closing brace character. -/
def rbraceC : Char := Char.ofNat 125

/-- Backtick character (code fence marker). -/
def backtickC : Char := Char.ofNat 96

/-- JSON whitespace accepted between tokens by `JSON.parse`:
space, tab, line feed, carriage return. -/
def isJsonWs (c : Char) : Bool := c = ' ' || c = '\t' || c = '\n' || c = '\r'

/-- Skip JSON whitespace. -/
def skipWs (cs : List Char) : List Char := cs.dropWhile isJsonWs

/-- Decimal digit test. -/
def isDigitC (c : Char) : Bool := '0' ≤ c && c ≤ '9'

/-- Hexadecimal digit value by code point (0-9, then a-f, then A-F), if
the character is a hex digit at all. -/
def hexVal (c : Char) : Option Nat :=
  let n := c.toNat
  if 48 ≤ n && n ≤ 57 then some (n - 48)
  else if 97 ≤ n && n ≤ 102 then some (n - 87)
  else if 65 ≤ n && n ≤ 70 then some (n - 55)
  else none

/-- Parse the body of a JSON string literal (after the opening quote),
returning the decoded characters and the remaining input.  Mirrors the
escape sequences accepted by `JSON.parse`; a `\uXXXX` escape denoting a
surrogate code unit is outside Lean's scalar values and decodes to the
`Char.ofNat` default, which no claim exercises. -/
def parseStrBody : Nat → List Char → Option (List Char × List Char)
  | 0, _ => none
  | _, [] => none
  | fuel + 1, c :: rest =>
    if c = '"' then some ([], rest)
    else if c = '\\' then
      match rest with
      | [] => none
      | e :: rest2 =>
        let decoded : Option (Char × List Char) :=
          if e = '"' then some ('"', rest2)
          else if e = '\\' then some ('\\', rest2)
          else if e = '/' then some ('/', rest2)
          else if e = 'b' then some ('\x08', rest2)
          else if e = 'f' then some ('\x0c', rest2)
          else if e = 'n' then some ('\n', rest2)
          else if e = 'r' then some ('\r', rest2)
          else if e = 't' then some ('\t', rest2)
          else if e = 'u' then
            match rest2 with
            | h1 :: h2 :: h3 :: h4 :: rest3 =>
              match hexVal h1, hexVal h2, hexVal h3, hexVal h4 with
              | some v1, some v2, some v3, some v4 =>
                let code := [v1, v2, v3, v4].foldl (fun a d => 16 * a + d) 0
                some (Char.ofNat code, rest3)
              | _, _, _, _ => none
            | _ => none
          else none
        match decoded with
        | some (ch, rest') =>
          match parseStrBody fuel rest' with
          | some (s, r) => some (ch :: s, r)
          | none => none
        | none => none
    else if c.toNat < 0x20 then none
    else
      match parseStrBody fuel rest with
      | some (s, r) => some (c :: s, r)
      | none => none

/-- Lex a JSON number (strict grammar: optional minus, integer part with no
leading zeros, optional fraction, optional exponent), returning the lexeme
and the rest. -/
def parseNumLex (cs : List Char) : Option (List Char × List Char) :=
  let (neg, cs1) :=
    match cs with
    | '-' :: t => ([('-' : Char)], t)
    | _ => ([], cs)
  match cs1 with
  | [] => none
  | c :: t =>
    if c = '0' then
      let intPart := [c]
      let rest := t
      parseNumFrac neg intPart rest
    else if isDigitC c then
      let digits := (c :: t).takeWhile isDigitC
      let rest := (c :: t).dropWhile isDigitC
      parseNumFrac neg digits rest
    else none
where
  /-- Continue with the optional fraction part. -/
  parseNumFrac (neg intPart : List Char) (cs : List Char) :
      Option (List Char × List Char) :=
    match cs with
    | '.' :: t =>
      let digits := t.takeWhile isDigitC
      if digits = [] then none
      else parseNumExp (neg ++ intPart ++ '.' :: digits) (t.dropWhile isDigitC)
    | _ => parseNumExp (neg ++ intPart) cs
  /-- Continue with the optional exponent part. -/
  parseNumExp (lexeme : List Char) (cs : List Char) :
      Option (List Char × List Char) :=
    match cs with
    | e :: t =>
      if e = 'e' || e = 'E' then
        let (sign, t1) :=
          match t with
          | s :: t' => if s = '+' || s = '-' then ([s], t') else ([], t)
          | [] => ([], t)
        let digits := t1.takeWhile isDigitC
        if digits = [] then none
        else some (lexeme ++ e :: sign ++ digits, t1.dropWhile isDigitC)
      else some (lexeme, cs)
    | [] => some (lexeme, cs)

/-- Insert an object member the way `JSON.parse` does for duplicate keys:
the first occurrence keeps its position, the value is replaced. -/
def insertMember (kvs : List (String × Json)) (k : String) (v : Json) :
    List (String × Json) :=
  if kvs.any (fun kv => kv.1 = k) then
    kvs.map (fun kv => if kv.1 = k then (k, v) else kv)
  else kvs ++ [(k, v)]

/-- Check that the input starts with the given literal characters. -/
def expectLit : List Char → List Char → Option (List Char)
  | [], cs => some cs
  | l :: ls, c :: cs => if c = l then expectLit ls cs else none
  | _ :: _, [] => none

mutual

/-- Parse one JSON value (recursive descent over the strict JSON grammar,
as `JSON.parse` accepts it), returning the value and the remaining input. -/
def parseValue : Nat → List Char → Option (Json × List Char)
  | 0, _ => none
  | fuel + 1, cs =>
    match skipWs cs with
    | [] => none
    | c :: rest =>
      if c = 'n' then
        match expectLit ['u', 'l', 'l'] rest with
        | some r => some (Json.null, r)
        | none => none
      else if c = 't' then
        match expectLit ['r', 'u', 'e'] rest with
        | some r => some (Json.bool true, r)
        | none => none
      else if c = 'f' then
        match expectLit ['a', 'l', 's', 'e'] rest with
        | some r => some (Json.bool false, r)
        | none => none
      else if c = '"' then
        match parseStrBody (rest.length + 1) rest with
        | some (s, r) => some (Json.str (String.mk s), r)
        | none => none
      else if c = lbraceC then
        match skipWs rest with
        | c' :: r' =>
          if c' = rbraceC then some (Json.obj [], r')
          else parseMembers fuel (c' :: r') []
        | [] => none
      else if c = '[' then
        match skipWs rest with
        | c' :: r' =>
          if c' = ']' then some (Json.arr [], r')
          else parseItems fuel (c' :: r') []
        | [] => none
      else
        match parseNumLex (c :: rest) with
        | some (lexeme, r) => some (Json.num (String.mk lexeme), r)
        | none => none

/-- Parse the members of a JSON object (positioned at a key). -/
def parseMembers : Nat → List Char → List (String × Json) →
    Option (Json × List Char)
  | 0, _, _ => none
  | fuel + 1, cs, acc =>
    match skipWs cs with
    | '"' :: rest =>
      match parseStrBody (rest.length + 1) rest with
      | some (k, cs1) =>
        match skipWs cs1 with
        | ':' :: cs2 =>
          match parseValue fuel cs2 with
          | some (v, cs3) =>
            let acc' := insertMember acc (String.mk k) v
            match skipWs cs3 with
            | ',' :: cs4 => parseMembers fuel cs4 acc'
            | c :: cs4 =>
              if c = rbraceC then some (Json.obj acc', cs4) else none
            | [] => none
          | none => none
        | _ => none
      | none => none
    | _ => none

/-- Parse the items of a JSON array (positioned at a value). -/
def parseItems : Nat → List Char → List Json → Option (Json × List Char)
  | 0, _, _ => none
  | fuel + 1, cs, acc =>
    match parseValue fuel cs with
    | some (v, cs1) =>
      let acc' := acc ++ [v]
      match skipWs cs1 with
      | ',' :: cs2 => parseItems fuel cs2 acc'
      | ']' :: cs2 => some (Json.arr acc', cs2)
      | _ => none
    | none => none

end

/-- Model of `JSON.parse` on a character list: parse one value and require
only whitespace to follow; `none` models a thrown `SyntaxError`. -/
def jsonParseL (cs : List Char) : Option Json :=
  match parseValue (2 * cs.length + 2) cs with
  | some (v, rest) => if skipWs rest = [] then some v else none
  | none => none

/-- Model of `JSON.parse` on a string. -/
def jsonParse (s : String) : Option Json := jsonParseL s.data

/-- Four-digit lowercase hexadecimal rendering used by `JSON.stringify`
for control characters. -/
def hexDigit (n : Nat) : Char :=
  if n < 10 then Char.ofNat ('0'.toNat + n) else Char.ofNat ('a'.toNat + n - 10)

/-- Escape one character the way `JSON.stringify` escapes string contents. -/
def escapeChar (c : Char) : List Char :=
  if c = '"' then ['\\', '"']
  else if c = '\\' then ['\\', '\\']
  else if c = '\x08' then ['\\', 'b']
  else if c = '\x0c' then ['\\', 'f']
  else if c = '\n' then ['\\', 'n']
  else if c = '\r' then ['\\', 'r']
  else if c = '\t' then ['\\', 't']
  else if c.toNat < 0x20 then
    ['\\', 'u', '0', '0', hexDigit (c.toNat / 16), hexDigit (c.toNat % 16)]
  else [c]

/-- Serialize a string literal as `JSON.stringify` does. -/
def stringifyStr (s : String) : String :=
  String.mk ('"' :: s.data.foldr (fun c acc => escapeChar c ++ acc) ['"'])

mutual

/-- Model of `JSON.stringify` (no spacing argument).  Numbers are emitted
as their stored lexeme. -/
def stringifyJson : Json → String
  | Json.null => "null"
  | Json.bool true => "true"
  | Json.bool false => "false"
  | Json.num lexeme => lexeme
  | Json.str s => stringifyStr s
  | Json.arr items => "[" ++ stringifyArr items ++ "]"
  | Json.obj members =>
    String.mk [lbraceC] ++ stringifyMembers members ++ String.mk [rbraceC]

/-- Serialize array items, comma separated. -/
def stringifyArr : List Json → String
  | [] => ""
  | [x] => stringifyJson x
  | x :: y :: rest => stringifyJson x ++ "," ++ stringifyArr (y :: rest)

/-- Serialize object members, comma separated. -/
def stringifyMembers : List (String × Json) → String
  | [] => ""
  | [kv] => stringifyStr kv.1 ++ ":" ++ stringifyJson kv.2
  | kv :: kv2 :: rest =>
    stringifyStr kv.1 ++ ":" ++ stringifyJson kv.2 ++ ","
      ++ stringifyMembers (kv2 :: rest)

end

/-- JavaScript truthiness of an optional string (`undefined` and the empty
string are falsy). -/
def truthyOpt : Option String → Bool
  | none => false
  | some s => s ≠ ""

/-- True when a JSON number lexeme denotes zero (all mantissa digits are 0). -/
def numLexemeZero (s : String) : Bool :=
  (s.data.takeWhile (fun c => c ≠ 'e' && c ≠ 'E')).all
    (fun c => !('1' ≤ c && c ≤ '9'))

/-- JavaScript truthiness of a JSON value. -/
def Json.truthy : Json → Bool
  | Json.null => false
  | Json.bool b => b
  | Json.num lexeme => !numLexemeZero lexeme
  | Json.str s => s ≠ ""
  | Json.arr _ => true
  | Json.obj _ => true

/-- JavaScript `s.toLowerCase()` restricted to the ASCII range the schema
type names use. -/
def jsToLower (s : String) : String := String.mk (s.data.map Char.toLower)

/-- A string is lowercase when it contains no ASCII uppercase letter
(code points 65 through 90). -/
def isLowercaseStr (s : String) : Bool :=
  s.data.all (fun c => !(65 ≤ c.toNat && c.toNat ≤ 90))

/-- JavaScript whitespace for `trim`: the ASCII whitespace characters plus
no-break space and BOM (the subset of the `WhiteSpace`/`LineTerminator`
productions that the inputs here can contain). -/
def isJsWs (c : Char) : Bool :=
  c = ' ' || c = '\t' || c = '\n' || c = '\r' || c = '\x0b' || c = '\x0c'
    || c.toNat = 0xa0 || c.toNat = 0xfeff

/-- Model of JavaScript `String.prototype.trim`. -/
def jsTrim (s : String) : String :=
  String.mk (((s.data.dropWhile isJsWs).reverse.dropWhile isJsWs).reverse)

/-- UTF-16 length of a string, which is what JavaScript `.length` returns. -/
def jsLen (s : String) : Nat :=
  s.data.foldl (fun n c => n + (if c.toNat < 0x10000 then 1 else 2)) 0

/-- JavaScript `a || b` on an optional string operand with a string default. -/
def orElseStr (o : Option String) (dflt : String) : String :=
  match o with
  | some s => if s = "" then dflt else s
  | none => dflt

/-- JavaScript `args || \x7b\x7d` on an optional JSON operand: a missing or
falsy value is replaced by the empty object. -/
def orEmptyObj (o : Option Json) : Json :=
  match o with
  | some j => if j.truthy then j else Json.obj []
  | none => Json.obj []

/-! ## Host (Gemini) content model

Shallow embedding of the `@google/genai` types the adapter reads: a `Part`
carries at most one of `text`, `functionCall`, `functionResponse` being
present models the corresponding key existing on the object, which is what
the adapter's `in` checks test. -/

/-- A Gemini function-call part payload. -/
structure FunctionCall where
  id : Option String := none
  name : Option String := none
  args : Option Json := none
  deriving Repr, Inhabited

/-- A Gemini function-response part payload. -/
structure FunctionResponse where
  id : Option String := none
  name : Option String := none
  response : Option Json := none
  deriving Repr, Inhabited

/-- A Gemini content part. -/
structure Part where
  text : Option String := none
  functionCall : Option FunctionCall := none
  functionResponse : Option FunctionResponse := none
  deriving Repr, Inhabited

/-- A Gemini conversation turn. -/
structure Content where
  role : Option String := none
  parts : Option (List Part) := none
  deriving Repr, Inhabited

/-- Union of a string and a part, as accepted by `toContent`. -/
inductive PartUnion where
  | str (s : String) : PartUnion
  | part (p : Part) : PartUnion
  deriving Repr, Inhabited

/-- Union of a content and a part-union, the element type of
`ContentListUnion`. -/
inductive ContentUnion where
  | content (c : Content) : ContentUnion
  | partU (p : PartUnion) : ContentUnion
  deriving Repr, Inhabited

/-- The `ContentListUnion` argument shape: a single element or an array.
Nested arrays (which `toContent` rejects by throwing) are not representable
and are not exercised by any claim. -/
inductive ContentListUnion where
  | one (c : ContentUnion) : ContentListUnion
  | many (cs : List ContentUnion) : ContentListUnion
  deriving Repr, Inhabited

/-- Embedding of `toContent`: a string becomes a user turn with one text
part, a content passes through, a bare part becomes a user turn holding it. -/
def toContent : ContentUnion → Content
  | ContentUnion.content c => c
  | ContentUnion.partU (PartUnion.str s) =>
    { role := some "user", parts := some [{ text := some s }] }
  | ContentUnion.partU (PartUnion.part p) =>
    { role := some "user", parts := some [p] }

/-- Embedding of `toContents`. -/
def toContents : ContentListUnion → List Content
  | ContentListUnion.one c => [toContent c]
  | ContentListUnion.many cs => cs.map toContent

/-! ## OpenAI-like wire message model (request direction) -/

/-- The `function` record of a request tool call. -/
structure ReqToolCallFn where
  name : Option String
  arguments : String
  deriving Repr, Inhabited

/-- A request-side tool call entry. -/
structure ReqToolCall where
  id : String
  type : String
  function : ReqToolCallFn
  deriving Repr, Inhabited

/-- An OpenAI-like chat message.  The runtime role is whatever string the
conversion computes (the declared TypeScript union is not enforced), so it
is modelled as an optional string. -/
structure OpenAILikeMessage where
  role : Option String := none
  content : Option String := none
  tool_calls : Option (List ReqToolCall) := none
  tool_call_id : Option String := none
  deriving Repr, Inhabited

/-- Parts of a turn carrying a `functionCall` key
(`parts.filter(part => 'functionCall' in part)`). -/
def fcParts (parts : List Part) : List Part :=
  parts.filter (fun p => p.functionCall.isSome)

/-- Parts of a turn carrying a `functionResponse` key. -/
def frParts (parts : List Part) : List Part :=
  parts.filter (fun p => p.functionResponse.isSome)

/-- Parts of a turn carrying a `text` key. -/
def textPartsOf (parts : List Part) : List Part :=
  parts.filter (fun p => p.text.isSome)

/-- Role mapping applied per turn: the host `model` role becomes
`assistant`, everything else (including a missing role) passes through. -/
def mapRole (role : Option String) : Option String :=
  if role = some "model" then some "assistant" else role

/-- Newline-joined text of the turn's text parts
(`textParts.map(part => part.text).join('\n')`). -/
def combinedTextOf (parts : List Part) : String :=
  String.intercalate "\n" ((textPartsOf parts).map (fun p => p.text.getD ""))

/-- One request tool call built from a function-call part: the id is the
part's own id when truthy, otherwise synthesized from `Date.now()` (the
explicit `now` parameter) and the part's index within the function-call
list; the arguments are the JSON-serialized args, a missing or falsy args
value serializing as the empty object. -/
def mkReqToolCall (now : Nat) (index : Nat) (p : Part) : ReqToolCall :=
  let fc := p.functionCall.getD default
  { id := orElseStr fc.id ("call_" ++ toString now ++ "_" ++ toString index),
    type := "function",
    function :=
      { name := fc.name,
        arguments := stringifyJson (orEmptyObj fc.args) } }

/-- Embedding of the per-turn body of `convertToOpenAIMessages`: a turn
with function-call parts yields one message carrying them as `tool_calls`
(empty combined text becomes `null` content); otherwise a turn with
function-response parts yields one `tool` message per response part;
otherwise a turn with text parts yields one plain message; otherwise
nothing. -/
def convertTurn (now : Nat) (content : Content) : List OpenAILikeMessage :=
  let role := mapRole content.role
  let parts := content.parts.getD []
  let functionCalls := fcParts parts
  let functionResponses := frParts parts
  let textParts := textPartsOf parts
  match functionCalls with
  | _ :: _ =>
    let tool_calls := functionCalls.enum.map
      (fun pr => mkReqToolCall now pr.1 pr.2)
    let combinedText := combinedTextOf parts
    [{ role := role,
       content := if combinedText = "" then none else some combinedText,
       tool_calls := some tool_calls }]
  | [] =>
    match functionResponses with
    | _ :: _ =>
      functionResponses.map (fun p =>
        let fr := p.functionResponse.getD default
        { role := some "tool",
          content := fr.response.map stringifyJson,
          tool_call_id := fr.id })
    | [] =>
      match textParts with
      | _ :: _ => [{ role := role, content := some (combinedTextOf parts) }]
      | [] => []

/-- Embedding of `convertToOpenAIMessages`: the per-turn messages are
appended in turn order. -/
def convertToOpenAIMessages (now : Nat) : List Content → List OpenAILikeMessage
  | [] => []
  | c :: rest => convertTurn now c ++ convertToOpenAIMessages now rest

/-! ## Tool declaration conversion -/

/-- A Gemini function declaration as read by `convertToOpenAITools`. -/
structure FunctionDeclaration where
  name : Option String := none
  description : Option String := none
  parameters : Option Json := none
  deriving Repr, Inhabited

/-- The `function` record of an OpenAI tool definition. -/
structure OpenAILikeToolFn where
  name : String
  description : String
  parameters : Json
  deriving Repr, Inhabited

/-- An OpenAI tool definition. -/
structure OpenAILikeTool where
  type : String
  function : OpenAILikeToolFn
  deriving Repr, Inhabited

mutual

/-- Embedding of `convertSchemaTypeToLowerCase` as the value transformation
effected by the in-place mutation: non-objects are returned unchanged (the
function early-returns on them, and on arrays every probed key is absent). -/
def lowerSchema : Json → Json
  | Json.obj kvs => Json.obj (lowerMembers kvs)
  | j => j

/-- Apply the per-key schema transformation to each member. -/
def lowerMembers : List (String × Json) → List (String × Json)
  | [] => []
  | (k, v) :: rest => (k, lowerMember k v) :: lowerMembers rest

/-- Per-key effect of `convertSchemaTypeToLowerCase` on an object member:
a string `type` is lowercased; the values of an object `properties` (or,
via `for..in` over indices, the elements of an array `properties`) are
recursed into; `items` is recursed into; the elements of array
`anyOf`/`allOf`/`oneOf` are recursed into; everything else is untouched. -/
def lowerMember (k : String) (v : Json) : Json :=
  if k = "type" then
    match v with
    | Json.str s => Json.str (jsToLower s)
    | j => j
  else if k = "properties" then
    match v with
    | Json.obj pkvs => Json.obj (lowerProps pkvs)
    | Json.arr xs => Json.arr (lowerList xs)
    | j => j
  else if k = "items" then lowerSchema v
  else if k = "anyOf" || k = "allOf" || k = "oneOf" then
    match v with
    | Json.arr xs => Json.arr (lowerList xs)
    | j => j
  else v

/-- Recurse into each value of a `properties` object. -/
def lowerProps : List (String × Json) → List (String × Json)
  | [] => []
  | (k, v) :: rest => (k, lowerSchema v) :: lowerProps rest

/-- Recurse into each element of a schema list. -/
def lowerList : List Json → List Json
  | [] => []
  | x :: xs => lowerSchema x :: lowerList xs

end

/-- The deep copy `JSON.parse(JSON.stringify(x))` performed before the
schema is mutated. -/
def jsonRoundTripCopy (j : Json) : Json :=
  (jsonParseL (stringifyJson j).data).getD Json.null

/-- Convert a single declaration as `convertToOpenAITools` does: deep-copy
the parameters (or the empty object when absent or falsy), lowercase the
schema types on the copy, and fill in fallback name and description. -/
def convertDecl (d : FunctionDeclaration) : OpenAILikeTool :=
  let parameters := jsonRoundTripCopy (orEmptyObj d.parameters)
  let lowered := lowerSchema parameters
  { type := "function",
    function :=
      { name := orElseStr d.name "unknown_function",
        description := d.description.getD "",
        parameters := lowered } }

/-- Embedding of `convertToOpenAITools`.  The second component is the
declaration list as the caller observes it after the call: the code
mutates only the JSON round-trip copy of each `parameters` object, so the
caller's declarations are unchanged and the post-state equals the input. -/
def convertToOpenAITools (ds : List FunctionDeclaration) :
    List OpenAILikeTool × List FunctionDeclaration :=
  (ds.map convertDecl, ds)

/-! ## Wire response model and `convertToGeminiResponse` -/

/-- A response-side tool call function record. -/
structure WireFn where
  name : String
  arguments : String
  deriving Repr, Inhabited, DecidableEq

/-- A response-side tool call. -/
structure WireToolCall where
  id : String
  type : String
  function : WireFn
  deriving Repr, Inhabited, DecidableEq

/-- The message of a response choice. -/
structure WireMsg where
  role : String
  content : Option String := none
  tool_calls : Option (List WireToolCall) := none
  deriving Repr, Inhabited, DecidableEq

/-- One choice of a non-streaming response. -/
structure WireChoice where
  index : Nat := 0
  message : WireMsg
  finish_reason : String
  deriving Repr, Inhabited, DecidableEq

/-- Token usage counters of a wire response. -/
structure WireUsage where
  prompt_tokens : Nat := 0
  completion_tokens : Nat := 0
  total_tokens : Nat := 0
  deriving Repr, Inhabited, DecidableEq

/-- A non-streaming OpenAI-like response. -/
structure OpenAILikeResponse where
  choices : List WireChoice
  usage : WireUsage
  deriving Repr, Inhabited, DecidableEq

/-- Usage metadata copied into the host response. -/
structure UsageMetadata where
  promptTokenCount : Nat
  candidatesTokenCount : Nat
  totalTokenCount : Nat
  deriving Repr, Inhabited, DecidableEq

/-- The content of a host response candidate. -/
structure CandContent where
  parts : List Part
  role : String
  deriving Repr, Inhabited

/-- A host response candidate. -/
structure Candidate where
  content : CandContent
  finishReason : Option String
  index : Nat
  deriving Repr, Inhabited

/-- Entry of the `functionCalls` convenience property attached with
`Object.defineProperty`. -/
structure FunctionCallInfo where
  id : String
  name : String
  args : Json
  deriving Repr, Inhabited

/-- A host `GenerateContentResponse` (the fields the adapter populates). -/
structure GenerateContentResponse where
  candidates : Option (List Candidate) := none
  usageMetadata : Option UsageMetadata := none
  functionCalls : Option (List FunctionCallInfo) := none
  deriving Repr, Inhabited

/-- JavaScript `arguments || '\x7b\x7d'`: an empty argument string is
replaced by the empty-object literal before parsing. -/
def orBrace (s : String) : String :=
  if s = "" then String.mk [lbraceC, rbraceC] else s

/-- JSON-decode one wire tool call's argument string; `none` models the
thrown `SyntaxError`. -/
def decodeArgs (tc : WireToolCall) : Option Json :=
  jsonParse (orBrace tc.function.arguments)

/-- Decode all argument strings left to right, failing at the first
malformed one exactly as the `map` over `JSON.parse` throws. -/
def decodeAllArgs : List WireToolCall → Option (List Json)
  | [] => some []
  | tc :: rest =>
    match decodeArgs tc with
    | some v =>
      match decodeAllArgs rest with
      | some vs => some (v :: vs)
      | none => none
    | none => none

/-- Error message used to model the `SyntaxError` thrown by `JSON.parse`. -/
def jsonSyntaxError (s : String) : String :=
  "SyntaxError: unexpected token in JSON: " ++ s

/-- Find the first malformed argument string, for the propagated error. -/
def firstBadArg : List WireToolCall → Option String
  | [] => none
  | tc :: rest =>
    match decodeArgs tc with
    | some _ => firstBadArg rest
    | none => some (orBrace tc.function.arguments)

/-- A function-call response part built from a decoded tool call. -/
def fcPartOf (tc : WireToolCall) (v : Json) : Part :=
  { functionCall := some { id := some tc.id, name := some tc.function.name,
                           args := some v } }

/-- Embedding of `convertToGeminiResponse`.  A missing first choice and a
malformed tool-call argument string are thrown errors (`Except.error`).
Note that in the tool-call branch the code returns before the
`usageMetadata` assignment, so usage is only copied in the plain-text
branch. -/
def convertToGeminiResponse (response : OpenAILikeResponse) :
    Except String GenerateContentResponse :=
  match response.choices with
  | [] => Except.error "No choices in OpenAI-like API response"
  | choice :: _ =>
    let hasToolCalls : Bool :=
      match choice.message.tool_calls with
      | some tcs => decide (tcs.length > 0)
      | none => false
    if hasToolCalls then
      let tcs := choice.message.tool_calls.getD []
      match decodeAllArgs tcs with
      | none => Except.error (jsonSyntaxError ((firstBadArg tcs).getD ""))
      | some vs =>
        let textParts : List Part :=
          if truthyOpt choice.message.content then
            [{ text := choice.message.content }]
          else []
        let parts := textParts ++ List.zipWith fcPartOf tcs vs
        Except.ok
          { candidates := some [{ content := { parts := parts, role := "model" },
                                  finishReason := some choice.finish_reason,
                                  index := 0 }],
            functionCalls := some (List.zipWith
              (fun tc v => { id := tc.id, name := tc.function.name, args := v })
              tcs vs) }
    else
      let cand : Candidate :=
        { content := { parts := [{ text := some (choice.message.content.getD "") }],
                       role := "model" },
          finishReason := some choice.finish_reason,
          index := 0 }
      Except.ok
        { candidates := some [cand],
          usageMetadata := some
            { promptTokenCount := response.usage.prompt_tokens,
              candidatesTokenCount := response.usage.completion_tokens,
              totalTokenCount := response.usage.total_tokens } }

/-! ## Streaming model

The byte/SSE framing (line buffering, the `data: ` prefix, `[DONE]`) is
the outer loop of `generateContentStream`; the claims are about parsed
delta frames, so the embedding starts at the per-chunk processing of a
successfully `JSON.parse`d `OpenAILikeStreamChunk`.  The `try/catch`
around each line is modelled by making finalization fallible: a thrown
`JSON.parse` error during finalization is caught at the line level, so
nothing is emitted, state mutations made earlier in the frame persist, and
the generator keeps reading. -/

/-- The `function` fragment of a streamed tool-call delta. -/
structure TCDeltaFn where
  name : Option String := none
  arguments : Option String := none
  deriving Repr, Inhabited

/-- A streamed tool-call delta. -/
structure TCDelta where
  index : Option Nat := none
  id : Option String := none
  type : Option String := none
  function : Option TCDeltaFn := none
  deriving Repr, Inhabited

/-- The delta object of a stream chunk choice. -/
structure DeltaObj where
  content : Option String := none
  tool_calls : Option (List TCDelta) := none
  deriving Repr, Inhabited

/-- One choice of a stream chunk. -/
structure ChunkChoice where
  delta : DeltaObj
  finish_reason : Option String := none
  deriving Repr, Inhabited

/-- A parsed stream chunk. -/
structure StreamChunk where
  choices : List ChunkChoice
  deriving Repr, Inhabited

/-- The per-index accumulation record's `function` field. -/
structure AccFn where
  name : Option String := none
  arguments : Option String := none
  deriving Repr, Inhabited

/-- The per-index tool-call accumulation record. -/
structure AccTC where
  id : Option String := none
  type : Option String := none
  function : Option AccFn := none
  deriving Repr, Inhabited

/-- The stream-scoped mutable state: the insertion-ordered map
`accumulatedToolCalls` (a JavaScript `Map` iterates in insertion order)
and `accumulatedContent`. -/
structure StreamState where
  acc : List (Nat × AccTC) := []
  content : String := ""
  deriving Repr, Inhabited

/-- The initial stream state. -/
def initialStreamState : StreamState := {}

/-- Merge one tool-call delta into an accumulation record: truthy `id` and
`type` overwrite, truthy function `name` and `arguments` fragments are
appended to the accumulated strings. -/
def mergeTCDelta (a : AccTC) (d : TCDelta) : AccTC :=
  let a1 := if truthyOpt d.id then { a with id := d.id } else a
  let a2 := if truthyOpt d.type then { a1 with type := d.type } else a1
  match d.function with
  | none => a2
  | some f =>
    let base := a2.function.getD ({} : AccFn)
    let base1 :=
      if truthyOpt f.name then
        { base with name := some (base.name.getD "" ++ f.name.getD "") }
      else base
    let newArgs := some (base1.arguments.getD "" ++ f.arguments.getD "")
    let base2 :=
      if truthyOpt f.arguments then { base1 with arguments := newArgs }
      else base1
    { a2 with function := some base2 }

/-- Apply one tool-call delta to the accumulation map: a record is created
on first mention of the index (`index ?? 0`) and merged in place. -/
def applyTCDelta (m : List (Nat × AccTC)) (d : TCDelta) : List (Nat × AccTC) :=
  let index := d.index.getD 0
  let m1 :=
    if m.any (fun kv => kv.1 = index) then m else m ++ [(index, ({} : AccTC))]
  m1.map (fun kv => if kv.1 = index then (kv.1, mergeTCDelta kv.2 d) else kv)

/-- Apply all tool-call deltas of one frame in order. -/
def applyTCDeltas (m : List (Nat × AccTC)) : List TCDelta → List (Nat × AccTC)
  | [] => m
  | d :: rest => applyTCDeltas (applyTCDelta m d) rest

/-- The incremental host response emitted for a truthy content delta. -/
def textDeltaResponse (s : String) (fr : Option String) :
    GenerateContentResponse :=
  { candidates := some [{ content := { parts := [{ text := some s }],
                                       role := "model" },
                          finishReason := fr, index := 0 }] }

/-- State and emission after the content-delta step of one frame. -/
def handleContent (st : StreamState) (choice : ChunkChoice) :
    List GenerateContentResponse × StreamState :=
  match choice.delta.content with
  | some s =>
    if s ≠ "" then
      ([textDeltaResponse s choice.finish_reason],
       { st with content := st.content ++ s })
    else ([], st)
  | none => ([], st)

/-- State after the tool-call-delta step of one frame. -/
def handleToolDeltas (st : StreamState) (choice : ChunkChoice) : StreamState :=
  match choice.delta.tool_calls with
  | some ds => { st with acc := applyTCDeltas st.acc ds }
  | none => st

/-- The accumulated records that survive the completeness filter: both a
truthy id and a truthy function name. -/
def keptToolCalls (acc : List (Nat × AccTC)) : List AccTC :=
  (acc.map (fun kv => kv.2)).filter
    (fun tc => truthyOpt tc.id && truthyOpt (tc.function.bind (fun f => f.name)))

/-- The argument string handed to `JSON.parse` at finalization
(`toolCall.function!.arguments || '\x7b\x7d'`). -/
def accArgString (tc : AccTC) : String :=
  orElseStr (tc.function.bind (fun f => f.arguments)) (String.mk [lbraceC, rbraceC])

/-- Decode the kept records' argument strings left to right; `none` models
the `JSON.parse` exception escaping the finalization block. -/
def decodeKept : List AccTC → Option (List Json)
  | [] => some []
  | tc :: rest =>
    match jsonParse (accArgString tc) with
    | some v =>
      match decodeKept rest with
      | some vs => some (v :: vs)
      | none => none
    | none => none

/-- A function-call part of the final streamed response. -/
def accFcPart (tc : AccTC) (v : Json) : Part :=
  { functionCall := some
      { id := some (tc.id.getD ""),
        name := some ((tc.function.bind (fun f => f.name)).getD ""),
        args := some v } }

/-- Finalization at a truthy finish reason: with accumulated tool calls,
emit the accumulated text (when non-empty) followed by the kept tool calls
with parsed arguments, also attaching the `functionCalls` property;
without any accumulated record, emit an empty-parts response carrying the
finish reason.  `none` models a `JSON.parse` exception, which the
line-level `catch` swallows. -/
def finalizeStream (st : StreamState) (fr : String) :
    Option GenerateContentResponse :=
  match st.acc with
  | _ :: _ =>
    let kept := keptToolCalls st.acc
    match decodeKept kept with
    | none => none
    | some vs =>
      let textParts : List Part :=
        if st.content ≠ "" then [{ text := some st.content }] else []
      let parts := textParts ++ List.zipWith accFcPart kept vs
      some
        { candidates := some [{ content := { parts := parts, role := "model" },
                                finishReason := some fr, index := 0 }],
          functionCalls := some (List.zipWith
            (fun tc v =>
              { id := tc.id.getD "",
                name := (tc.function.bind (fun f => f.name)).getD "",
                args := v })
            kept vs) }
  | [] =>
    some
      { candidates := some [{ content := { parts := [], role := "model" },
                              finishReason := some fr, index := 0 }] }

/-- Process one parsed stream frame: emissions, next state, and whether the
generator returned.  The finish check is the JavaScript truthiness test
`choice.finish_reason && choice.finish_reason !== null`, so an empty
string does not finalize. -/
def processChunk (st : StreamState) (chunk : StreamChunk) :
    List GenerateContentResponse × StreamState × Bool :=
  match chunk.choices with
  | [] => ([], st, false)
  | choice :: _ =>
    let (emits1, st1) := handleContent st choice
    let st2 := handleToolDeltas st1 choice
    match choice.finish_reason with
    | some fr =>
      if fr ≠ "" then
        match finalizeStream st2 fr with
        | some resp => (emits1 ++ [resp], st2, true)
        | none => (emits1, st2, false)
      else (emits1, st2, false)
    | none => (emits1, st2, false)

/-- Run the generator over a list of parsed frames, stopping at the first
frame on which it returns.  A stream that ends without a truthy finish
reason leaves the generator unterminated (third component `false`). -/
def runChunks (st : StreamState) :
    List StreamChunk → List GenerateContentResponse × StreamState × Bool
  | [] => ([], st, false)
  | c :: cs =>
    match processChunk st c with
    | (emits, st', true) => (emits, st', true)
    | (emits, st', false) =>
      match runChunks st' cs with
      | (es, st'', t) => (emits ++ es, st'', t)

/-! ## countTokens -/

/-- The parameters of a count-tokens request (the field the adapter reads). -/
structure CountTokensParameters where
  contents : ContentListUnion
  deriving Repr, Inhabited

/-- The count-tokens response. -/
structure CountTokensResponse where
  totalTokens : Nat
  deriving Repr, Inhabited, DecidableEq

/-- The combined text whose length drives the estimate:
`messages.map(m => m.content || '').join(' ')`. -/
def countTokensText (now : Nat) (contents : ContentListUnion) : String :=
  String.intercalate " "
    ((convertToOpenAIMessages now (toContents contents)).map
      (fun m => m.content.getD ""))

/-- Embedding of `countTokens`: convert the contents, join the message
texts with single spaces, and estimate `Math.ceil(length / 4)` (exact in
IEEE doubles for the lengths involved, so modelled as the rational
ceiling of the UTF-16 length over 4). -/
def countTokens (now : Nat) (request : CountTokensParameters) :
    CountTokensResponse :=
  let totalText := countTokensText now request.contents
  { totalTokens := ⌈(jsLen totalText : ℚ) / 4⌉₊ }

/-! ## validateAuthMethod -/

/-- The host CLI's `AuthType` members referenced by `validateAuthMethod`
(imported there from `@google/gemini-cli-core`); `other` covers any other
string and falls through to the invalid-method result. -/
inductive CliAuthType where
  | CLOUD_SHELL
  | LOGIN_WITH_GOOGLE
  | USE_GEMINI
  | USE_VERTEX_AI
  | AZURE_OPENAI
  | other (s : String)
  deriving Repr, DecidableEq

/-- The result structure returned when validation fails. -/
structure AuthValidationResult where
  message : String
  missing : List String
  deriving Repr, DecidableEq

/-- JavaScript truthiness of an environment variable: set and non-empty. -/
def envTruthy (env : String → Option String) (key : String) : Bool :=
  match env key with
  | some v => v ≠ ""
  | none => false

/-- The fixed Azure OpenAI validation message. -/
def azureValidationMessage : String :=
  "When using Azure OpenAI, you must specify the following environment variables:\n" ++
  "• AZURE_OPENAI_API_KEY\n" ++
  "• AZURE_OPENAI_ENDPOINT\n" ++
  "Update your environment and try again (no reload needed if using .env)!"

/-- The message returned when `GOOGLE_CLOUD_PROJECT` is missing. -/
def gcpProjectMessage : String :=
  "GOOGLE_CLOUD_PROJECT environment variable not found. Add that to your environment and try again (no reload needed if using .env)!"

/-- The message returned when `GEMINI_API_KEY` is missing. -/
def geminiKeyMessage : String :=
  "GEMINI_API_KEY environment variable not found. Add that to your environment and try again (no reload needed if using .env)!"

/-- The message returned when the Vertex AI configuration is missing. -/
def vertexMessage : String :=
  "When using Vertex AI, you must specify either:\n• GOOGLE_CLOUD_PROJECT and GOOGLE_CLOUD_LOCATION environment variables.\n• GOOGLE_API_KEY environment variable (if using express mode).\nUpdate your environment and try again (no reload needed if using .env)!"

/-- Embedding of `validateAuthMethod` with `process.env` passed explicitly
(`loadEnvironment()` populates it; the `console.log` is a side effect with
no result).  Returning `none` allows provider selection.  The source
contains a second, identical `AZURE_OPENAI` guard requiring
`AZURE_OPENAI_MODEL` as well; it is unreachable because the first guard
matches the same auth method, so only the first is modelled. -/
def validateAuthMethod (env : String → Option String) (authMethod : CliAuthType) :
    Option AuthValidationResult :=
  match authMethod with
  | CliAuthType.CLOUD_SHELL => none
  | CliAuthType.LOGIN_WITH_GOOGLE =>
    if !envTruthy env "GOOGLE_CLOUD_PROJECT" then
      some { message := gcpProjectMessage, missing := ["GOOGLE_CLOUD_PROJECT"] }
    else none
  | CliAuthType.USE_GEMINI =>
    if !envTruthy env "GEMINI_API_KEY" then
      some { message := geminiKeyMessage, missing := ["GEMINI_API_KEY"] }
    else none
  | CliAuthType.USE_VERTEX_AI =>
    let hasVertexProjectLocationConfig :=
      envTruthy env "GOOGLE_CLOUD_PROJECT" && envTruthy env "GOOGLE_CLOUD_LOCATION"
    let hasGoogleApiKey := envTruthy env "GOOGLE_API_KEY"
    if !hasVertexProjectLocationConfig && !hasGoogleApiKey then
      let missing :=
        (if !envTruthy env "GOOGLE_CLOUD_PROJECT" then ["GOOGLE_CLOUD_PROJECT"] else []) ++
        (if !envTruthy env "GOOGLE_CLOUD_LOCATION" then ["GOOGLE_CLOUD_LOCATION"] else []) ++
        (if !envTruthy env "GOOGLE_API_KEY" then ["GOOGLE_API_KEY"] else [])
      some { message := vertexMessage, missing := missing }
    else none
  | CliAuthType.AZURE_OPENAI =>
    let missing :=
      (if !envTruthy env "AZURE_OPENAI_API_KEY" then ["AZURE_OPENAI_API_KEY"] else []) ++
      (if !envTruthy env "AZURE_OPENAI_ENDPOINT" then ["AZURE_OPENAI_ENDPOINT"] else [])
    if missing.length > 0 then
      some { message := azureValidationMessage, missing := missing }
    else none
  | CliAuthType.other _ =>
    some { message := "Invalid auth method selected.", missing := [] }

/-! ## Tolerant JSON extraction (`jsonUtils.ts`)

The two code-block regexes are modelled by direct constructions that give
the same match as the JavaScript engine: the lazy/greedy sub-patterns of
`\x60\x60\x60(?:json|JSON)?\s*\n?([\s\S]*?)\n?\x60\x60\x60` consume
disjoint character classes, so no backtracking across token boundaries can
occur and the group is computed by direct scanning. -/

/-- A code fence (three backticks) starts at index `i`. -/
def fenceAt (cs : List Char) (i : Nat) : Bool :=
  cs.getD i ' ' = backtickC && cs.getD (i + 1) ' ' = backtickC
    && cs.getD (i + 2) ' ' = backtickC

/-- Some fence starts at or after index `i`. -/
def hasFenceFrom (cs : List Char) (i : Nat) : Bool :=
  (List.range cs.length).any (fun j => i ≤ j && fenceAt cs j)

/-- JavaScript `\s` on the characters these inputs can contain. -/
def isRegexWs (c : Char) : Bool := isJsWs c

/-- Drop an optional `json`/`JSON` language tag (the alternation tries
`json` first). -/
def dropLangTag (cs : List Char) : List Char :=
  match expectLit ['j', 's', 'o', 'n'] cs with
  | some r => r
  | none =>
    match expectLit ['J', 'S', 'O', 'N'] cs with
    | some r => r
    | none => cs

/-- Length of the lazy group interior: the smallest `k` such that position
`k` starts the closing fence, possibly after one newline consumed by the
greedy `\n?`. -/
def lazyInteriorLen (cs : List Char) : Nat :=
  ((List.range (cs.length + 1)).find?
    (fun k => fenceAt cs k || (cs.getD k ' ' = '\n' && fenceAt cs (k + 1)))).getD
    cs.length

/-- Group of the unanchored code-block regex starting at the first fence
that has a later disjoint fence. -/
def codeBlockGroupFrom (cs : List Char) (i0 : Nat) : List Char :=
  let r := dropLangTag (cs.drop (i0 + 3))
  let r2 := r.dropWhile isRegexWs
  r2.take (lazyInteriorLen r2)

/-- Start index of the unanchored code-block match (pattern 2), when the
regex matches at all: the first fence with a later disjoint fence. -/
def p2Start (cs : List Char) : Option Nat :=
  (List.range cs.length).find? (fun i => fenceAt cs i && hasFenceFrom cs (i + 3))

/-- Group of the anchored code-block regex (pattern 1), when it matches:
the trimmed text starts and ends with disjoint fences; the interior runs
to the final fence, minus one newline eaten by the greedy `\n?`. -/
def pattern1Group (cs : List Char) : Option (List Char) :=
  if fenceAt cs 0 && decide (6 ≤ cs.length) && fenceAt cs (cs.length - 3) then
    let r := dropLangTag (cs.drop 3)
    let r2 := r.dropWhile isRegexWs
    let consumed := cs.length - r2.length
    let interior := r2.take (cs.length - 3 - consumed)
    let interior' :=
      match interior.reverse with
      | '\n' :: t => t.reverse
      | _ => interior
    some interior'
  else none

/-- True when the input contains a fenced code block, in the sense matched
by either code-block regex. -/
def hasFencedCodeBlock (cs : List Char) : Bool :=
  (pattern1Group cs).isSome || (p2Start cs).isSome

/-- Loop of `extractJsonFromPosition`: string-aware bracket counting with
quote and backslash-escape state, returning the number of characters up to
and including the matching close bracket. -/
def ejpGo (openC closeC : Char) :
    List Char → Int → Bool → Bool → Nat → Option Nat
  | [], _, _, _, _ => none
  | c :: rest, depth, inStr, esc, pos =>
    if esc then ejpGo openC closeC rest depth inStr false (pos + 1)
    else if c = '\\' then ejpGo openC closeC rest depth inStr true (pos + 1)
    else if c = '"' then ejpGo openC closeC rest depth (!inStr) false (pos + 1)
    else if !inStr && c = openC then
      ejpGo openC closeC rest (depth + 1) inStr false (pos + 1)
    else if !inStr && c = closeC then
      if depth - 1 = 0 then some (pos + 1)
      else ejpGo openC closeC rest (depth - 1) inStr false (pos + 1)
    else ejpGo openC closeC rest depth inStr esc (pos + 1)

/-- Embedding of `extractJsonFromPosition`: `none` when the start is not a
bracket or the brackets never balance. -/
def extractJsonFromPosition (cs : List Char) (startIndex : Nat) :
    Option (List Char) :=
  let tl := cs.drop startIndex
  match tl.headD ' ' with
  | c =>
    if c = lbraceC || c = '[' then
      let closeC := if c = lbraceC then rbraceC else ']'
      match ejpGo c closeC tl 0 false false 0 with
      | some n => some (tl.take n)
      | none => none
    else none

/-- All pattern-3 candidates, in start-index order: every `\x7b` or `[`
position contributes its string-aware bracket-matched substring when one
exists. -/
def pattern3Candidates (cs : List Char) : List (List Char) :=
  (List.range cs.length).filterMap (fun i =>
    let c := cs.getD i ' '
    if c = lbraceC || c = '[' then extractJsonFromPosition cs i else none)

/-- Stable insertion step for the longest-first sort: an earlier candidate
passes over strictly longer ones only, so equal lengths keep their order
(JavaScript `Array.prototype.sort` is stable). -/
def insertByLenDesc (x : List Char) : List (List Char) → List (List Char)
  | [] => [x]
  | y :: ys =>
    if x.length < y.length then y :: insertByLenDesc x ys else x :: y :: ys

/-- Stable longest-first sort of the candidate list
(`jsonCandidates.sort((a, b) => b.length - a.length)`). -/
def sortByLenDesc : List (List Char) → List (List Char)
  | [] => []
  | x :: xs => insertByLenDesc x (sortByLenDesc xs)

/-- Validity under the embedded `JSON.parse`. -/
def validJson (cs : List Char) : Bool := (jsonParseL cs).isSome

/-- Naive bracket matching of pattern 4 (no string awareness), returning
the length up to and including the balancing close. -/
def naiveGo (openC closeC : Char) : List Char → Int → Nat → Option Nat
  | [], _, _ => none
  | c :: rest, depth, pos =>
    if c = openC then naiveGo openC closeC rest (depth + 1) (pos + 1)
    else if c = closeC then
      if depth - 1 = 0 then some (pos + 1)
      else naiveGo openC closeC rest (depth - 1) (pos + 1)
    else naiveGo openC closeC rest depth (pos + 1)

/-- Pattern-4 candidate: from the first `\x7b` or `[`, take the naively
bracket-matched prefix. -/
def pattern4Candidate (cs : List Char) : Option (List Char) :=
  match cs.findIdx? (fun c => c = lbraceC || c = '[') with
  | none => none
  | some startIndex =>
    let tl := cs.drop startIndex
    let isObject := tl.headD ' ' = lbraceC
    let openC := if isObject then lbraceC else '['
    let closeC := if isObject then rbraceC else ']'
    match naiveGo openC closeC tl 0 0 with
    | some n => some (tl.take n)
    | none => none

/-- No newline occurs strictly after index `q`. -/
def noNlAfter (cs : List Char) (q : Nat) : Bool :=
  ((cs.drop (q + 1)).all (fun c => !(c = '\n')))

/-- Largest index `q ≥ pmin` holding `closeC` with no newline after it:
the greedy `[\s\S]*` inside the pattern-5 group followed by the lazy
dot-star and the end anchor. -/
def p5LargestClose (cs : List Char) (closeC : Char) (pmin : Nat) : Option Nat :=
  ((List.range cs.length).filter
    (fun q => pmin ≤ q && cs.getD q ' ' = closeC && noNlAfter cs q)).max?

/-- Index of the first newline (or the length when none), bounding the
lazy single-line prefix `^.*?` of pattern 5. -/
def firstNl (cs : List Char) : Nat :=
  (cs.findIdx? (fun c => c = '\n')).getD cs.length

/-- Pattern-5 group: the first position on the first line where a brace
(or bracket) opens a span to a same-kind close bracket that is followed by
no newline; `\x7b...\x7d` is tried before `[...]` at each position. -/
def pattern5Group (cs : List Char) : Option (List Char) :=
  ((List.range (firstNl cs)).findSome? (fun p =>
    let c := cs.getD p ' '
    if c = lbraceC then
      (p5LargestClose cs rbraceC (p + 1)).map (fun q => (p, q))
    else if c = '[' then
      (p5LargestClose cs ']' (p + 1)).map (fun q => (p, q))
    else none)).map (fun pq => (cs.drop pq.1).take (pq.2 - pq.1 + 1))

/-- Patterns 4 through 6 of `extractJsonFromText`: the naive first-bracket
candidate, then the greedy context regex candidate (each accepted only
when it parses), then the trimmed input unchanged. -/
def extractPatterns456 (cs : List Char) (trimmed : String) : String :=
  let after5 : String :=
    match pattern5Group cs with
    | some g =>
      let cand := jsTrim (String.mk g)
      if validJson cand.data then cand else trimmed
    | none => trimmed
  match pattern4Candidate cs with
  | some cand => if validJson cand then String.mk cand else after5
  | none => after5

/-- Embedding of `extractJsonFromText`: trim; return a fenced code block's
interior when one matches (anchored first, then unanchored); otherwise the
longest parsing bracket-matched candidate; otherwise the fallback
patterns; otherwise the trimmed input. -/
def extractJsonFromText (text : String) : String :=
  let trimmed := jsTrim text
  let cs := trimmed.data
  match pattern1Group cs with
  | some g => jsTrim (String.mk g)
  | none =>
    match p2Start cs with
    | some i0 => jsTrim (String.mk (codeBlockGroupFrom cs i0))
    | none =>
      match (sortByLenDesc (pattern3Candidates cs)).find? validJson with
      | some c => String.mk c
      | none => extractPatterns456 cs trimmed

/-- Embedding of `parseJsonFromText`: extract, then strictly parse. -/
def parseJsonFromText (text : String) : Except String Json :=
  let jsonString := extractJsonFromText text
  match jsonParse jsonString with
  | some v => Except.ok v
  | none => Except.error (jsonSyntaxError jsonString)

/-! ## Claim-side predicates and expected values -/

mutual

/-- Claim-side predicate for C3: every `type` string occurring anywhere in
the schema tree — top level, each value (or, for an array, element) of
`properties`, `items`, and each element of `anyOf`/`allOf`/`oneOf`,
recursively — is lowercase. -/
def typesLowered : Json → Bool
  | Json.obj kvs => typesLoweredMembers kvs
  | _ => true

/-- Check every member of a schema object. -/
def typesLoweredMembers : List (String × Json) → Bool
  | [] => true
  | (k, v) :: rest => typesLoweredMember k v && typesLoweredMembers rest

/-- Check one schema member against the claim's enumerated paths. -/
def typesLoweredMember (k : String) (v : Json) : Bool :=
  (if k = "type" then
    match v with
    | Json.str s => isLowercaseStr s
    | _ => true
   else true) &&
  (if k = "properties" then
    match v with
    | Json.obj pkvs => typesLoweredProps pkvs
    | Json.arr xs => typesLoweredList xs
    | _ => true
   else true) &&
  (if k = "items" then typesLowered v else true) &&
  (if k = "anyOf" || k = "allOf" || k = "oneOf" then
    match v with
    | Json.arr xs => typesLoweredList xs
    | _ => true
   else true)

/-- Check every value of a `properties` object. -/
def typesLoweredProps : List (String × Json) → Bool
  | [] => true
  | (_, v) :: rest => typesLowered v && typesLoweredProps rest

/-- Check every element of a schema list. -/
def typesLoweredList : List Json → Bool
  | [] => true
  | x :: xs => typesLowered x && typesLoweredList xs

end

/-- The single wire message a turn with function-call parts produces: the
turn's mapped role, the newline-joined sibling text (empty concatenation
becoming `null`), and one tool call per function-call part in order. -/
def fcTurnMessage (now : Nat) (turn : Content) : OpenAILikeMessage :=
  let parts := turn.parts.getD []
  { role := mapRole turn.role,
    content :=
      if combinedTextOf parts = "" then none else some (combinedTextOf parts),
    tool_calls :=
      some ((fcParts parts).enum.map (fun pr => mkReqToolCall now pr.1 pr.2)) }

/-- A stream frame whose only payload is one tool-call delta for index `i`
with optional id and name fragments and an arguments fragment. -/
def fragChunk (i : Nat) (idO nameO : Option String) (arg : String) :
    StreamChunk :=
  let fn : TCDeltaFn := { name := nameO, arguments := some arg }
  let d : TCDelta := { index := some i, id := idO, function := some fn }
  { choices := [{ delta := { tool_calls := some [d] } }] }

/-- A stream frame carrying only a finish reason. -/
def finishChunk (fr : String) : StreamChunk :=
  { choices := [{ delta := {}, finish_reason := some fr }] }

/-- Effect of one arguments fragment on the accumulated optional string:
a truthy fragment is appended to the accumulated value (empty start
modelled by the `|| ''` default), a falsy one leaves it unchanged. -/
def appendArg (a : Option String) (s : String) : Option String :=
  if s = "" then a else some (a.getD "" ++ s)

/-- Fold `appendArg` over a fragment list. -/
def appendArgs (a : Option String) : List String → Option String
  | [] => a
  | s :: rest => appendArgs (appendArg a s) rest

/-- The accumulation record reached after an id/name-bearing first
fragment and any sequence of argument fragments. -/
def accRecord (id name : String) (args : Option String) : AccTC :=
  { id := some id, function := some { name := some name, arguments := args } }

/-- The final response C1 expects: a single function-call part carrying
the parsed concatenated arguments, plus the `functionCalls` property. -/
def c1ExpectedResponse (fr id name : String) (v : Json) :
    GenerateContentResponse :=
  let fc : FunctionCall := { id := some id, name := some name, args := some v }
  let cand : Candidate :=
    { content := { parts := [{ functionCall := some fc }], role := "model" },
      finishReason := some fr, index := 0 }
  { candidates := some [cand],
    functionCalls := some [{ id := id, name := name, args := v }] }

/-! ## Concrete fixtures used by witnesses and counterexamples -/

/-- The function-call part of the user-role fixture turn. -/
def userFcPart : Part :=
  { functionCall := some { name := some "f", args := some (Json.obj []) } }

/-- A user-role turn carrying one function-call part. -/
def userFcTurn : Content :=
  { role := some "user", parts := some [userFcPart] }

/-- The function-call part of the mixed fixture turn. -/
def mixedFcPart : Part := { functionCall := some { name := some "f" } }

/-- The function-response part of the mixed fixture turn. -/
def mixedFrPart : Part :=
  { functionResponse := some
      { id := some "call_9", response := some (Json.obj []) } }

/-- A user-role turn carrying one function-call part and one
function-response part. -/
def mixedFcFrTurn : Content :=
  { role := some "user", parts := some [mixedFcPart, mixedFrPart] }

/-- A model-role text turn. -/
def textTurnModel : Content :=
  { role := some "model", parts := some [{ text := some "hi" }] }

/-- A user-role text turn. -/
def textTurnUser : Content :=
  { role := some "user", parts := some [{ text := some "yo" }] }

/-- A wire tool call with the given id, name, and argument string. -/
def wireTC (i n a : String) : WireToolCall :=
  { id := i, type := "function", function := { name := n, arguments := a } }

/-- A response choice carrying two tool calls with well-formed argument
strings (the second empty, standing for the `|| '\x7b\x7d'` default). -/
def c5GoodChoice : WireChoice :=
  { message := { role := "assistant",
                 tool_calls := some [wireTC "a" "f" "\x7b\"x\":1\x7d",
                                     wireTC "b" "g" ""] },
    finish_reason := "tool_calls" }

/-- A response whose first choice is `c5GoodChoice`. -/
def c5GoodResp : OpenAILikeResponse :=
  { choices := [c5GoodChoice], usage := {} }

/-- A response choice carrying one tool call with a malformed argument
string. -/
def c5BadChoice : WireChoice :=
  { message := { role := "assistant",
                 tool_calls := some [wireTC "a" "f" "\x7bbad"] },
    finish_reason := "tool_calls" }

/-- A response whose first choice is `c5BadChoice`. -/
def c5BadResp : OpenAILikeResponse :=
  { choices := [c5BadChoice], usage := {} }

/-- The host response the tool-call branch of `convertToGeminiResponse`
produces for decoded argument values `vs`. -/
def c5ExpectedResponse (choice : WireChoice) (tcs : List WireToolCall)
    (vs : List Json) : GenerateContentResponse :=
  let textParts : List Part :=
    if truthyOpt choice.message.content then
      [{ text := choice.message.content }]
    else []
  let cand : Candidate :=
    { content := { parts := textParts ++ List.zipWith fcPartOf tcs vs,
                   role := "model" },
      finishReason := some choice.finish_reason, index := 0 }
  { candidates := some [cand],
    functionCalls := some (List.zipWith
      (fun tc v => { id := tc.id, name := tc.function.name, args := v })
      tcs vs) }

/-- The final empty-parts response emitted when no tool call was
accumulated. -/
def emptyFinishResponse (fr : String) : GenerateContentResponse :=
  { candidates := some [{ content := { parts := [], role := "model" },
                          finishReason := some fr, index := 0 }] }

/-- The final response emitted when tool calls were accumulated: the
accumulated text (when non-empty) followed by the kept tool calls with
their decoded argument values, plus the `functionCalls` property. -/
def keptFinishResponse (st : StreamState) (fr : String) (vs : List Json) :
    GenerateContentResponse :=
  let textParts : List Part :=
    if st.content ≠ "" then [{ text := some st.content }] else []
  let parts := textParts ++ List.zipWith accFcPart (keptToolCalls st.acc) vs
  let cand : Candidate :=
    { content := { parts := parts, role := "model" },
      finishReason := some fr, index := 0 }
  { candidates := some [cand],
    functionCalls := some (List.zipWith
      (fun tc v =>
        { id := tc.id.getD "",
          name := (tc.function.bind (fun f => f.name)).getD "",
          args := v })
      (keptToolCalls st.acc) vs) }

/-- A stream state holding one complete accumulated tool call and some
accumulated text. -/
def c2KeptState : StreamState :=
  { acc := [(0, accRecord "id1" "f" (some "\x7b\"a\":1\x7d"))],
    content := "hello" }

/-! # Theorems -/

set_option maxRecDepth 4096

/-- Helper: `Char.ofNatAux` stores exactly the given code point. -/
theorem toNat_ofNatAux (n : Nat) (h : n.isValidChar) :
    (Char.ofNatAux n h).toNat = n := by
  have h32 : n < 2 ^ 32 := by
    rcases h with h | ⟨h1, h2⟩ <;> omega
  simp only [Char.ofNatAux, Char.toNat]
  change (BitVec.ofNatLt n _).toNat = n
  simp

/-- Helper: `Char.toLower` never returns an ASCII uppercase letter. -/
theorem toLower_not_upper (c : Char) :
    (!(decide (65 ≤ (Char.toLower c).toNat)
        && decide ((Char.toLower c).toNat ≤ 90))) = true := by
  simp only [Char.toLower]
  split
  · next h =>
    obtain ⟨h1, h2⟩ := h
    have hv : (c.toNat + 32).isValidChar := Or.inl (by omega)
    rw [Char.ofNat, dif_pos hv, toNat_ofNatAux]
    simp only [Bool.not_eq_true', Bool.and_eq_false_iff, decide_eq_false_iff_not]
    omega
  · next h =>
    simp only [Bool.not_eq_true', Bool.and_eq_false_iff, decide_eq_false_iff_not]
    omega

/-- Helper: lowercasing a string makes it lowercase. -/
theorem isLowercaseStr_jsToLower (s : String) :
    isLowercaseStr (jsToLower s) = true := by
  rw [isLowercaseStr, jsToLower]
  have hd : (String.mk (s.data.map Char.toLower)).data = s.data.map Char.toLower := rfl
  rw [hd, List.all_eq_true]
  intro c hc
  obtain ⟨a, _, rfl⟩ := List.mem_map.mp hc
  exact toLower_not_upper a

/-- Helper: the rational ceiling of `n / 4` is `(n + 3) / 4` in naturals. -/
theorem ceil_div_four (n : Nat) : ⌈(n : ℚ) / 4⌉₊ = (n + 3) / 4 := by
  apply le_antisymm
  · rw [Nat.ceil_le, div_le_iff₀ (by norm_num : (0 : ℚ) < 4)]
    have h : n ≤ (n + 3) / 4 * 4 := by omega
    exact_mod_cast h
  · rcases Nat.eq_zero_or_pos ((n + 3) / 4) with h | h
    · simp [h]
    · have hlt : ((n + 3) / 4 - 1) < ⌈(n : ℚ) / 4⌉₊ := by
        rw [Nat.lt_ceil]
        rw [lt_div_iff₀ (by norm_num : (0 : ℚ) < 4)]
        have hn : ((n + 3) / 4 - 1) * 4 < n := by omega
        exact_mod_cast hn
      omega

/-- C9: `countTokens` returns `totalTokens = ceil(L / 4)` where `L` is the
length of the converted messages' contents joined by single spaces, and a
combined text of length 400 yields exactly 100. -/
theorem c9_count_tokens (now : Nat) (request : CountTokensParameters) :
    (countTokens now request).totalTokens
        = (jsLen (countTokensText now request.contents) + 3) / 4 ∧
      (jsLen (countTokensText now request.contents) = 400 →
        (countTokens now request).totalTokens = 100) := by
  have hmain : (countTokens now request).totalTokens
      = (jsLen (countTokensText now request.contents) + 3) / 4 := by
    show ⌈(jsLen (countTokensText now request.contents) : ℚ) / 4⌉₊ = _
    exact ceil_div_four _
  refine ⟨hmain, fun h => ?_⟩
  rw [hmain, h]

/-- C9 witness: a single text turn of 400 characters is counted as exactly
100 tokens. -/
theorem c9_count_tokens_witness :
    (countTokens 0 { contents := ContentListUnion.one (ContentUnion.partU
        (PartUnion.str (String.mk (List.replicate 400 'a')))) }).totalTokens
      = 100 :=
  (c9_count_tokens 0 _).2 (by decide)

/-- C8 counterexample: with `AZURE_OPENAI_API_KEY` and
`AZURE_OPENAI_BASE_URL` both set (the variables the README instructs the
user to set), `validateAuthMethod` still blocks the Azure OpenAI method,
because the validator requires `AZURE_OPENAI_ENDPOINT` instead of
`AZURE_OPENAI_BASE_URL`. -/
theorem c8_base_url_counterexample :
    validateAuthMethod
        (fun k => if k = "AZURE_OPENAI_API_KEY" then some "key"
                  else if k = "AZURE_OPENAI_BASE_URL" then some "https://host"
                  else none)
        CliAuthType.AZURE_OPENAI
      = some { message := azureValidationMessage,
               missing := ["AZURE_OPENAI_ENDPOINT"] } := by
  decide

/-- C8 amended: for the Azure OpenAI auth method, `validateAuthMethod`
returns `null` exactly when `AZURE_OPENAI_API_KEY` and
`AZURE_OPENAI_ENDPOINT` are set to non-empty values (the validator does
not consult `AZURE_OPENAI_BASE_URL`); otherwise it returns the fixed
message together with a `missing` list enumerating exactly the unset (or
empty) variables among these two. -/
theorem c8_azure_validation_amended (env : String → Option String) :
    validateAuthMethod env CliAuthType.AZURE_OPENAI =
      (if envTruthy env "AZURE_OPENAI_API_KEY"
          && envTruthy env "AZURE_OPENAI_ENDPOINT" then
        none
       else
        some { message := azureValidationMessage,
               missing :=
                 (if !envTruthy env "AZURE_OPENAI_API_KEY"
                  then ["AZURE_OPENAI_API_KEY"] else []) ++
                 (if !envTruthy env "AZURE_OPENAI_ENDPOINT"
                  then ["AZURE_OPENAI_ENDPOINT"] else []) }) := by
  unfold validateAuthMethod
  cases hk : envTruthy env "AZURE_OPENAI_API_KEY" <;>
    cases he : envTruthy env "AZURE_OPENAI_ENDPOINT" <;>
      simp [hk, he]

/-- Helper bundle for C3, proved by strong induction on term size: every
result of the `lowerSchema` family satisfies the corresponding lowercase
predicate. -/
theorem lowered_bundle (n : Nat) :
    (∀ j : Json, sizeOf j ≤ n → typesLowered (lowerSchema j) = true) ∧
    (∀ (k : String) (v : Json), sizeOf v ≤ n →
      typesLoweredMember k (lowerMember k v) = true) ∧
    (∀ kvs : List (String × Json), sizeOf kvs ≤ n →
      typesLoweredMembers (lowerMembers kvs) = true) ∧
    (∀ pkvs : List (String × Json), sizeOf pkvs ≤ n →
      typesLoweredProps (lowerProps pkvs) = true) ∧
    (∀ xs : List Json, sizeOf xs ≤ n →
      typesLoweredList (lowerList xs) = true) := by
  induction n using Nat.strong_induction_on with
  | _ n IH =>
  have hP1 : ∀ j : Json, sizeOf j ≤ n → typesLowered (lowerSchema j) = true := by
    intro j hj
    match j with
    | Json.obj kvs =>
      rw [lowerSchema, typesLowered]
      have hs : sizeOf kvs < sizeOf (Json.obj kvs) := by
        simp only [Json.obj.sizeOf_spec]; omega
      exact (IH (sizeOf kvs) (by omega)).2.2.1 kvs le_rfl
    | Json.null => simp [lowerSchema, typesLowered]
    | Json.bool _ => simp [lowerSchema, typesLowered]
    | Json.num _ => simp [lowerSchema, typesLowered]
    | Json.str _ => simp [lowerSchema, typesLowered]
    | Json.arr _ => simp [lowerSchema, typesLowered]
  have hP2 : ∀ (k : String) (v : Json), sizeOf v ≤ n →
      typesLoweredMember k (lowerMember k v) = true := by
    intro k v hv
    by_cases h1 : k = "type"
    · subst h1
      cases v <;>
        simp [lowerMember, typesLoweredMember, isLowercaseStr_jsToLower]
    · by_cases h2 : k = "properties"
      · subst h2
        match v with
        | Json.obj pkvs =>
          have hs : sizeOf pkvs < sizeOf (Json.obj pkvs) := by
            simp only [Json.obj.sizeOf_spec]; omega
          have hrec := (IH (sizeOf pkvs) (by omega)).2.2.2.1 pkvs le_rfl
          simp [lowerMember, typesLoweredMember, h1, hrec]
        | Json.arr xs =>
          have hs : sizeOf xs < sizeOf (Json.arr xs) := by
            simp only [Json.arr.sizeOf_spec]; omega
          have hrec := (IH (sizeOf xs) (by omega)).2.2.2.2 xs le_rfl
          simp [lowerMember, typesLoweredMember, h1, hrec]
        | Json.null => simp [lowerMember, typesLoweredMember, h1]
        | Json.bool _ => simp [lowerMember, typesLoweredMember, h1]
        | Json.num _ => simp [lowerMember, typesLoweredMember, h1]
        | Json.str _ => simp [lowerMember, typesLoweredMember, h1]
      · by_cases h3 : k = "items"
        · subst h3
          have hrec := hP1 v hv
          simp [lowerMember.eq_def, typesLoweredMember.eq_def, h1, h2, hrec]
        · by_cases h4 : (k = "anyOf" || k = "allOf" || k = "oneOf") = true
          · match v with
            | Json.arr xs =>
              have hs : sizeOf xs < sizeOf (Json.arr xs) := by
                simp only [Json.arr.sizeOf_spec]; omega
              have hrec := (IH (sizeOf xs) (by omega)).2.2.2.2 xs le_rfl
              simp [lowerMember, typesLoweredMember, h1, h2, h3, h4, hrec]
            | Json.null => simp [lowerMember, typesLoweredMember, h1, h2, h3, h4]
            | Json.bool _ => simp [lowerMember, typesLoweredMember, h1, h2, h3, h4]
            | Json.num _ => simp [lowerMember, typesLoweredMember, h1, h2, h3, h4]
            | Json.str _ => simp [lowerMember, typesLoweredMember, h1, h2, h3, h4]
            | Json.obj _ => simp [lowerMember, typesLoweredMember, h1, h2, h3, h4]
          · simp [lowerMember.eq_def, typesLoweredMember.eq_def, h1, h2, h3, h4]
  have hP3 : ∀ kvs : List (String × Json), sizeOf kvs ≤ n →
      typesLoweredMembers (lowerMembers kvs) = true := by
    intro kvs hk
    match kvs with
    | [] => simp [lowerMembers, typesLoweredMembers]
    | (k, v) :: rest =>
      have hs : sizeOf v < sizeOf ((k, v) :: rest) ∧
          sizeOf rest < sizeOf ((k, v) :: rest) := by
        simp only [List.cons.sizeOf_spec, Prod.mk.sizeOf_spec]; omega
      have hhead := hP2 k v (by omega)
      have htail := (IH (sizeOf rest) (by omega)).2.2.1 rest le_rfl
      simp [lowerMembers, typesLoweredMembers, hhead, htail]
  have hP4 : ∀ pkvs : List (String × Json), sizeOf pkvs ≤ n →
      typesLoweredProps (lowerProps pkvs) = true := by
    intro pkvs hk
    match pkvs with
    | [] => simp [lowerProps, typesLoweredProps]
    | (k, v) :: rest =>
      have hs : sizeOf v < sizeOf ((k, v) :: rest) ∧
          sizeOf rest < sizeOf ((k, v) :: rest) := by
        simp only [List.cons.sizeOf_spec, Prod.mk.sizeOf_spec]; omega
      have hhead := hP1 v (by omega)
      have htail := (IH (sizeOf rest) (by omega)).2.2.2.1 rest le_rfl
      simp [lowerProps, typesLoweredProps, hhead, htail]
  have hP5 : ∀ xs : List Json, sizeOf xs ≤ n →
      typesLoweredList (lowerList xs) = true := by
    intro xs hk
    match xs with
    | [] => simp [lowerList, typesLoweredList]
    | x :: rest =>
      have hs : sizeOf x < sizeOf (x :: rest) ∧
          sizeOf rest < sizeOf (x :: rest) := by
        simp only [List.cons.sizeOf_spec]; omega
      have hhead := hP1 x (by omega)
      have htail := (IH (sizeOf rest) (by omega)).2.2.2.2 rest le_rfl
      simp [lowerList, typesLoweredList, hhead, htail]
  exact ⟨hP1, hP2, hP3, hP4, hP5⟩

/-- Helper: every schema produced by `lowerSchema` satisfies the C3
lowercase predicate. -/
theorem lowerSchema_typesLowered (j : Json) :
    typesLowered (lowerSchema j) = true :=
  (lowered_bundle (sizeOf j)).1 j le_rfl

/-- C3: every tool definition produced by `convertToOpenAITools` has every
`type` string in its nested parameter schema (top level, each value of
`properties`, `items`, each element of `anyOf`/`allOf`/`oneOf`,
recursively) lowercase, and the caller's declaration list is unchanged
after the conversion (the code lowers a deep copy). -/
theorem c3_tools_lowercase_no_mutation (ds : List FunctionDeclaration) :
    ((convertToOpenAITools ds).1.all
        (fun t => typesLowered t.function.parameters)) = true ∧
      (convertToOpenAITools ds).2 = ds := by
  refine ⟨?_, rfl⟩
  rw [List.all_eq_true]
  intro t ht
  have hmem : t ∈ ds.map convertDecl := ht
  obtain ⟨d, _, rfl⟩ := List.mem_map.mp hmem
  show typesLowered (lowerSchema (jsonRoundTripCopy (orEmptyObj d.parameters))) = true
  exact lowerSchema_typesLowered _

/-- Helper: the message conversion distributes over turn-list append. -/
theorem convertMessages_append (now : Nat) (l1 l2 : List Content) :
    convertToOpenAIMessages now (l1 ++ l2) =
      convertToOpenAIMessages now l1 ++ convertToOpenAIMessages now l2 := by
  induction l1 with
  | nil => simp [convertToOpenAIMessages]
  | cons c rest ih => simp [convertToOpenAIMessages, ih]

/-- Helper: a turn with function-call parts produces exactly its
tool-calls message. -/
theorem convertTurn_fc (now : Nat) (turn : Content)
    (h : (fcParts (turn.parts.getD [])).isEmpty = false) :
    convertTurn now turn = [fcTurnMessage now turn] := by
  obtain ⟨p, ps, hps⟩ : ∃ p ps, fcParts (turn.parts.getD []) = p :: ps := by
    cases hfc : fcParts (turn.parts.getD []) with
    | nil => rw [hfc] at h; simp at h
    | cons p ps => exact ⟨p, ps, rfl⟩
  simp only [convertTurn, fcTurnMessage, hps]

/-- Helper: a turn with only text parts produces exactly one plain
message with its mapped role. -/
theorem convertTurn_text (now : Nat) (turn : Content)
    (ht : (textPartsOf (turn.parts.getD [])).isEmpty = false)
    (hfc : (fcParts (turn.parts.getD [])).isEmpty = true)
    (hfr : (frParts (turn.parts.getD [])).isEmpty = true) :
    convertTurn now turn =
      [{ role := mapRole turn.role,
         content := some (combinedTextOf (turn.parts.getD [])) }] := by
  obtain ⟨p, ps, hps⟩ : ∃ p ps, textPartsOf (turn.parts.getD []) = p :: ps := by
    cases hx : textPartsOf (turn.parts.getD []) with
    | nil => rw [hx] at ht; simp at ht
    | cons p ps => exact ⟨p, ps, rfl⟩
  rw [List.isEmpty_iff] at hfc hfr
  simp only [convertTurn, hfc, hfr, hps]

/-- C6: for a conversation of text-only turns (each with at least one text
part and no function-call or function-response parts), the output has one
message per turn and each role is the turn's role with `model` mapped to
`assistant` and everything else unchanged. -/
theorem c6_text_only_roles (now : Nat) (contents : List Content)
    (h : ∀ c ∈ contents,
        (textPartsOf (c.parts.getD [])).isEmpty = false ∧
        (fcParts (c.parts.getD [])).isEmpty = true ∧
        (frParts (c.parts.getD [])).isEmpty = true) :
    (convertToOpenAIMessages now contents).length = contents.length ∧
      (convertToOpenAIMessages now contents).map (fun m => m.role) =
        contents.map (fun c => mapRole c.role) := by
  induction contents with
  | nil => exact ⟨rfl, rfl⟩
  | cons c rest ih =>
    obtain ⟨ht, hfc, hfr⟩ := h c (by simp)
    have hrest := ih (fun x hx => h x (by simp [hx]))
    have hc := convertTurn_text now c ht hfc hfr
    constructor
    · show (convertTurn now c ++ convertToOpenAIMessages now rest).length = _
      rw [hc]
      simp [hrest.1]
    · show (convertTurn now c ++ convertToOpenAIMessages now rest).map _ = _
      rw [hc]
      simp [hrest.2]

/-- C6 witness: a model turn followed by a user turn, both text-only. -/
theorem c6_text_only_roles_witness :
    (convertToOpenAIMessages 0 [textTurnModel, textTurnUser]).length
        = [textTurnModel, textTurnUser].length ∧
      (convertToOpenAIMessages 0 [textTurnModel, textTurnUser]).map
          (fun m => m.role) =
        [textTurnModel, textTurnUser].map (fun c => mapRole c.role) :=
  c6_text_only_roles 0 [textTurnModel, textTurnUser] (by decide)

/-- C4 counterexample: a `user`-role turn carrying a function-call part
produces a wire message whose role is `user`; no assistant-role message is
emitted, contradicting the claim that every turn with a function-call part
yields an assistant-role tool-calls message. -/
theorem c4_role_counterexample :
    ((convertToOpenAIMessages 0 [userFcTurn]).map (fun m => m.role)
        = [some "user"]) ∧
      ((convertToOpenAIMessages 0 [userFcTurn]).filter
          (fun m => m.role = some "assistant")).length = 0 := by
  constructor <;> decide

/-- C4 amended: a turn with function-call parts yields exactly one wire
message whose role is the turn's mapped role (`assistant` only when the
turn's role is `model`), whose tool-calls list has one entry per
function-call part in order (ids synthesized from the timestamp and index
when the part's id is absent or empty), and whose content is the
newline-joined sibling text, `null` when that concatenation is empty. -/
theorem c4_function_call_message_amended (now : Nat) (pre post : List Content)
    (turn : Content) (h : (fcParts (turn.parts.getD [])).isEmpty = false) :
    convertToOpenAIMessages now (pre ++ turn :: post) =
      convertToOpenAIMessages now pre
        ++ fcTurnMessage now turn :: convertToOpenAIMessages now post := by
  rw [convertMessages_append]
  have hcons : convertToOpenAIMessages now (turn :: post) =
      convertTurn now turn ++ convertToOpenAIMessages now post := rfl
  rw [hcons, convertTurn_fc now turn h]
  rfl

/-- C4 witness: the amended theorem applied to the concrete user-role
function-call turn. -/
theorem c4_function_call_message_amended_witness :
    convertToOpenAIMessages 7 ([] ++ userFcTurn :: []) =
      convertToOpenAIMessages 7 []
        ++ fcTurnMessage 7 userFcTurn :: convertToOpenAIMessages 7 [] :=
  c4_function_call_message_amended 7 [] [] userFcTurn (by decide)

/-- C10 counterexample: a `user`-role turn containing both a function-call
part and a function-response part emits exactly one message, and that
message is not assistant-role, contradicting the claim's description of
the emitted message as the assistant-role tool-calls message. -/
theorem c10_mixed_turn_counterexample :
    (convertToOpenAIMessages 0 [mixedFcFrTurn]).length = 1 ∧
      ((convertToOpenAIMessages 0 [mixedFcFrTurn]).map (fun m => m.role)
        = [some "user"]) ∧
      ((convertToOpenAIMessages 0 [mixedFcFrTurn]).filter
          (fun m => m.role = some "assistant")).length = 0 := by
  refine ⟨?_, ?_, ?_⟩ <;> decide

/-- C10 amended: for a turn containing both function-call and
function-result parts, the conversion emits only the single tool-calls
message (the function-call branch wins; the branches are mutually
exclusive, tried in the order function-call, function-result, text): its
role is the turn's mapped role, its tool-calls list is built from the
function-call parts, it carries no `tool_call_id`, and the function-result
parts produce no wire message at all. -/
theorem c10_mixed_turn_single_message (now : Nat) (pre post : List Content)
    (turn : Content)
    (hfc : (fcParts (turn.parts.getD [])).isEmpty = false)
    (_hfr : (frParts (turn.parts.getD [])).isEmpty = false) :
    ∃ m : OpenAILikeMessage,
      convertToOpenAIMessages now (pre ++ turn :: post) =
        convertToOpenAIMessages now pre
          ++ m :: convertToOpenAIMessages now post ∧
      m.role = mapRole turn.role ∧
      m.tool_calls = some ((fcParts (turn.parts.getD [])).enum.map
        (fun pr => mkReqToolCall now pr.1 pr.2)) ∧
      m.tool_call_id = none := by
  refine ⟨fcTurnMessage now turn, ?_, rfl, rfl, rfl⟩
  rw [convertMessages_append]
  have hcons : convertToOpenAIMessages now (turn :: post) =
      convertTurn now turn ++ convertToOpenAIMessages now post := rfl
  rw [hcons, convertTurn_fc now turn hfc]
  rfl

/-- Helper: extracting the function-call payloads of the parts built from
decoded tool calls gives exactly the decoded records. -/
theorem filterMap_fcPartOf (tcs : List WireToolCall) (vs : List Json) :
    List.filterMap (fun p => p.functionCall) (List.zipWith fcPartOf tcs vs) =
      List.zipWith
        (fun tc v => ({ id := some tc.id, name := some tc.function.name,
                        args := some v } : FunctionCall)) tcs vs := by
  induction tcs generalizing vs with
  | nil => simp
  | cons tc rest ih =>
    cases vs with
    | nil => simp
    | cons v vrest => simp [fcPartOf, ih]

/-- Helper: decoding all argument strings fails exactly when some tool
call's argument string is malformed. -/
theorem decodeAllArgs_eq_none_iff (tcs : List WireToolCall) :
    decodeAllArgs tcs = none ↔ ∃ tc ∈ tcs, decodeArgs tc = none := by
  induction tcs with
  | nil => simp [decodeAllArgs]
  | cons tc rest ih =>
    simp only [decodeAllArgs]
    cases h : decodeArgs tc with
    | none =>
      simp only [List.mem_cons]
      exact ⟨fun _ => ⟨tc, Or.inl rfl, h⟩, fun _ => trivial⟩
    | some v =>
      cases h2 : decodeAllArgs rest with
      | none =>
        obtain ⟨tc', htc', hd⟩ := ih.mp h2
        simp only [List.mem_cons]
        exact ⟨fun _ => ⟨tc', Or.inr htc', hd⟩, fun _ => trivial⟩
      | some vs =>
        simp only [List.mem_cons]
        constructor
        · intro hx; exact absurd hx (by simp)
        · rintro ⟨tc', htc' | htc', hd⟩
          · rw [htc'] at hd; rw [hd] at h; cases h
          · exact absurd (ih.mpr ⟨tc', htc', hd⟩) (by simp [h2])

/-- C5: when the first choice carries tool calls, the conversion builds
one function-call part per tool call with the JSON-decoded argument
string, and a malformed argument string makes the whole conversion a hard
parse failure. -/
theorem c5_tool_call_args_decoding (r : OpenAILikeResponse)
    (choice : WireChoice) (rest : List WireChoice) (tcs : List WireToolCall)
    (h1 : r.choices = choice :: rest)
    (h2 : choice.message.tool_calls = some tcs)
    (h3 : tcs ≠ []) :
    (∀ vs, decodeAllArgs tcs = some vs →
      ∃ resp, convertToGeminiResponse r = Except.ok resp ∧
        ∃ cand crest, resp.candidates = some (cand :: crest) ∧
          cand.content.parts.filterMap (fun p => p.functionCall) =
            List.zipWith
              (fun tc v => ({ id := some tc.id,
                              name := some tc.function.name,
                              args := some v } : FunctionCall)) tcs vs ∧
          resp.functionCalls = some (List.zipWith
            (fun tc v => ({ id := tc.id, name := tc.function.name,
                            args := v } : FunctionCallInfo)) tcs vs)) ∧
    ((∃ tc ∈ tcs, decodeArgs tc = none) →
      ∃ e, convertToGeminiResponse r = Except.error e) := by
  have hlen : decide (tcs.length > 0) = true := by
    cases tcs with
    | nil => exact absurd rfl h3
    | cons a b => simp
  constructor
  · intro vs hvs
    have hconv : convertToGeminiResponse r =
        Except.ok (c5ExpectedResponse choice tcs vs) := by
      simp only [convertToGeminiResponse, c5ExpectedResponse, h1, hlen,
        if_true, h2, Option.getD_some, hvs]
    refine ⟨_, hconv, _, _, rfl, ?_, rfl⟩
    show List.filterMap _
        ((if truthyOpt choice.message.content then
            [{ text := choice.message.content }] else [])
          ++ List.zipWith fcPartOf tcs vs) = _
    rw [List.filterMap_append, filterMap_fcPartOf]
    cases htr : truthyOpt choice.message.content <;> simp
  · intro hex
    have hnone : decodeAllArgs tcs = none := (decodeAllArgs_eq_none_iff tcs).mpr hex
    refine ⟨jsonSyntaxError ((firstBadArg tcs).getD ""), ?_⟩
    simp only [convertToGeminiResponse, h1, hlen, if_true, h2,
      Option.getD_some, hnone]

/-- C5 witness: the theorem applied to a concrete two-tool-call response
with well-formed argument strings and to a concrete response with a
malformed argument string. -/
theorem c5_tool_call_args_decoding_witness :
    (∃ resp, convertToGeminiResponse c5GoodResp = Except.ok resp) ∧
      (∃ e, convertToGeminiResponse c5BadResp = Except.error e) := by
  constructor
  · obtain ⟨resp, hresp, -⟩ :=
      (c5_tool_call_args_decoding c5GoodResp c5GoodChoice [] _
          rfl rfl (by decide)).1
        [Json.obj [("x", Json.num "1")], Json.obj []] rfl
    exact ⟨resp, hresp⟩
  · exact (c5_tool_call_args_decoding c5BadResp c5BadChoice [] _
        rfl rfl (by decide)).2 ⟨wireTC "a" "f" "\x7bbad", by simp [c5BadChoice, wireTC], rfl⟩

/-- Helper: when every kept record's argument string parses, decoding the
kept list succeeds. -/
theorem decodeKept_total (l : List AccTC)
    (h : ∀ tc ∈ l, (jsonParse (accArgString tc)).isSome) :
    ∃ vs, decodeKept l = some vs := by
  induction l with
  | nil => exact ⟨[], rfl⟩
  | cons tc rest ih =>
    obtain ⟨v, hv⟩ := Option.isSome_iff_exists.mp (h tc (by simp))
    obtain ⟨vs, hvs⟩ := ih (fun x hx => h x (by simp [hx]))
    exact ⟨v :: vs, by simp [decodeKept, hv, hvs]⟩

/-- C2 counterexample: the claim as stated fails in two ways.  First, a
stream that accumulated a tool call (with id and name) whose argument
string is malformed emits nothing at the finish frame and the generator
does not terminate: the `JSON.parse` exception thrown during finalization
is swallowed by the per-line catch.  Second, an empty-string finish reason
is non-null but falsy, so it does not finalize either. -/
theorem c2_finalization_counterexample :
    ((runChunks initialStreamState
        [fragChunk 0 (some "1") (some "f") "\x7bbad",
         finishChunk "stop"]).1.length = 0 ∧
      (runChunks initialStreamState
        [fragChunk 0 (some "1") (some "f") "\x7bbad",
         finishChunk "stop"]).2.2 = false) ∧
    ((processChunk initialStreamState (finishChunk "")).1.length = 0 ∧
      (processChunk initialStreamState (finishChunk "")).2.2 = false) := by
  refine ⟨⟨?_, ?_⟩, ?_, ?_⟩ <;> decide

/-- Helper: finalization with an empty accumulation map emits the
empty-parts response. -/
theorem finalizeStream_nil (st : StreamState) (fr : String)
    (hx : st.acc = []) :
    finalizeStream st fr = some (emptyFinishResponse fr) := by
  simp only [finalizeStream, emptyFinishResponse, hx]

/-- Helper: finalization with a non-empty accumulation map whose kept
records all decode emits the kept-tool-calls response. -/
theorem finalizeStream_cons (st : StreamState) (fr : String)
    (hd : Nat × AccTC) (tl : List (Nat × AccTC)) (hx : st.acc = hd :: tl)
    (vs : List Json) (hvs : decodeKept (keptToolCalls st.acc) = some vs) :
    finalizeStream st fr = some (keptFinishResponse st fr vs) := by
  simp only [hx] at hvs
  simp only [finalizeStream, keptFinishResponse, hx, hvs]

/-- C2 amended: for every stream frame whose choice carries a truthy
finish reason (non-null and non-empty), provided every accumulated tool
call that has both an id and a function name carries an argument string
that is empty or parses as JSON: after the frame's content and tool-call
deltas are applied, exactly one final response is appended to the frame's
emissions and the generator terminates; its parts are the accumulated text
(when non-empty) followed by exactly the kept tool calls when any record
was accumulated, and empty when none was, carrying the finish reason. -/
theorem c2_finalization_amended (st st2 : StreamState) (chunk : StreamChunk)
    (choice : ChunkChoice) (crest : List ChunkChoice) (fr : String)
    (h1 : chunk.choices = choice :: crest)
    (h2 : choice.finish_reason = some fr)
    (h3 : fr ≠ "")
    (hst2 : st2 = handleToolDeltas (handleContent st choice).2 choice)
    (h4 : ∀ tc ∈ keptToolCalls st2.acc, (jsonParse (accArgString tc)).isSome) :
    ∃ final cand,
      (processChunk st chunk).1 = (handleContent st choice).1 ++ [final] ∧
      (processChunk st chunk).2.2 = true ∧
      final.candidates = some [cand] ∧
      cand.finishReason = some fr ∧
      (st2.acc = [] → cand.content.parts = []) ∧
      (st2.acc ≠ [] →
        ∃ vs, decodeKept (keptToolCalls st2.acc) = some vs ∧
          cand.content.parts =
            (if st2.content ≠ "" then [{ text := some st2.content }] else [])
              ++ List.zipWith accFcPart (keptToolCalls st2.acc) vs) := by
  obtain ⟨vs, hvs⟩ := decodeKept_total _ h4
  rcases hhc : handleContent st choice with ⟨emits1, st1⟩
  have hst2' : st2 = handleToolDeltas st1 choice := by rw [hst2, hhc]
  subst hst2'
  cases hacc : (handleToolDeltas st1 choice).acc with
  | nil =>
    have hfin := finalizeStream_nil (handleToolDeltas st1 choice) fr hacc
    have hpc : processChunk st chunk =
        (emits1 ++ [emptyFinishResponse fr], handleToolDeltas st1 choice,
          true) := by
      simp only [processChunk, h1, hhc, h2, hfin]
      rw [if_pos h3]
    refine ⟨emptyFinishResponse fr, _, ?_, ?_, rfl, rfl, fun _ => rfl,
      fun hne => absurd rfl hne⟩
    · rw [hpc]
    · rw [hpc]
  | cons hd tl =>
    have hvs2 : decodeKept (keptToolCalls (hd :: tl)) = some vs := by
      rw [← hacc]; exact hvs
    have hfin := finalizeStream_cons (handleToolDeltas st1 choice) fr
      hd tl hacc vs hvs
    have hpc : processChunk st chunk =
        (emits1 ++ [keptFinishResponse (handleToolDeltas st1 choice) fr vs],
          handleToolDeltas st1 choice, true) := by
      simp only [processChunk, h1, hhc, h2, hfin]
      rw [if_pos h3]
    refine ⟨keptFinishResponse (handleToolDeltas st1 choice) fr vs, _,
      ?_, ?_, rfl, rfl, fun he => absurd he (by simp),
      fun _ => ⟨vs, hvs2, ?_⟩⟩
    · rw [hpc]
    · rw [hpc]
    · rw [← hacc]

/-- C2 witness: the amended theorem applied to a concrete finish frame,
once on a state holding one complete accumulated tool call and once on the
empty initial state. -/
theorem c2_finalization_amended_witness :
    ((processChunk c2KeptState (finishChunk "stop")).2.2 = true ∧
      (processChunk c2KeptState (finishChunk "stop")).1.length = 1) ∧
    ((processChunk initialStreamState (finishChunk "stop")).2.2 = true ∧
      (processChunk initialStreamState (finishChunk "stop")).1.length = 1) := by
  constructor
  · obtain ⟨final, cand, he, ht, -⟩ :=
      c2_finalization_amended c2KeptState _ (finishChunk "stop") _ [] "stop"
        rfl rfl (by decide) rfl (by decide)
    refine ⟨ht, ?_⟩
    rw [he]
    simp [handleContent]
  · obtain ⟨final, cand, he, ht, -⟩ :=
      c2_finalization_amended initialStreamState _ (finishChunk "stop") _ []
        "stop" rfl rfl (by decide) rfl (by decide)
    refine ⟨ht, ?_⟩
    rw [he]
    simp [handleContent]

/-- Helper: one generator step on a frame that does not terminate. -/
theorem runChunks_cons_false (st : StreamState) (c : StreamChunk)
    (cs : List StreamChunk) (emits : List GenerateContentResponse)
    (st' : StreamState) (h : processChunk st c = (emits, st', false)) :
    runChunks st (c :: cs) =
      (emits ++ (runChunks st' cs).1, (runChunks st' cs).2.1,
        (runChunks st' cs).2.2) := by
  rw [runChunks, h]

/-- Helper: one generator step on a frame that terminates the stream. -/
theorem runChunks_cons_true (st : StreamState) (c : StreamChunk)
    (cs : List StreamChunk) (emits : List GenerateContentResponse)
    (st' : StreamState) (h : processChunk st c = (emits, st', true)) :
    runChunks st (c :: cs) = (emits, st', true) := by
  rw [runChunks, h]

/-- Helper: a pure argument-fragment frame for index `i` emits nothing,
does not terminate, and appends the fragment to the accumulated argument
string. -/
theorem processChunk_frag (i : Nat) (id name : String) (argso : Option String)
    (s : String) :
    processChunk { acc := [(i, accRecord id name argso)], content := "" }
        (fragChunk i none none s) =
      ([], { acc := [(i, accRecord id name (appendArg argso s))],
             content := "" }, false) := by
  by_cases hs : s = "" <;>
    simp [processChunk, fragChunk, handleContent, handleToolDeltas,
      applyTCDeltas, applyTCDelta, mergeTCDelta, accRecord, appendArg,
      truthyOpt, hs]

/-- Helper: running a block of argument-fragment frames folds the
fragments into the accumulated argument string and emits nothing. -/
theorem runChunks_frags (i : Nat) (id name : String) (rest : List String)
    (argso : Option String) (tail : List StreamChunk) :
    runChunks { acc := [(i, accRecord id name argso)], content := "" }
        (rest.map (fun s => fragChunk i none none s) ++ tail) =
      runChunks { acc := [(i, accRecord id name (appendArgs argso rest))],
                  content := "" } tail := by
  induction rest generalizing argso with
  | nil => rw [appendArgs, List.map_nil, List.nil_append]
  | cons s srest ih =>
    rw [List.map_cons, List.cons_append,
      runChunks_cons_false _ _ _ _ _ (processChunk_frag i id name argso s),
      appendArgs, ih (appendArg argso s)]
    rcases hrec : runChunks
        { acc := [(i, accRecord id name (appendArgs (appendArg argso s) srest))],
          content := "" } tail with ⟨es, st', t⟩
    rfl

/-- Helper: the first fragment frame, carrying the id and the name,
creates the accumulation record. -/
theorem processChunk_first (i : Nat) (id name a1 : String)
    (hid : id ≠ "") (hname : name ≠ "") :
    processChunk initialStreamState (fragChunk i (some id) (some name) a1) =
      ([], { acc := [(i, accRecord id name (appendArg none a1))],
             content := "" }, false) := by
  by_cases ha : a1 = "" <;>
    simp [processChunk, fragChunk, handleContent, handleToolDeltas,
      applyTCDeltas, applyTCDelta, mergeTCDelta, accRecord, appendArg,
      truthyOpt, initialStreamState, hid, hname, ha]

/-- Helper: the finish frame on a state holding exactly the one complete
record emits the single final tool-call response and terminates. -/
theorem processChunk_finish_one (i : Nat) (id name fr args : String)
    (v : Json) (hid : id ≠ "") (hname : name ≠ "") (hfr : fr ≠ "")
    (hargs : args ≠ "") (hv : jsonParse args = some v) :
    processChunk { acc := [(i, accRecord id name (some args))], content := "" }
        (finishChunk fr) =
      ([c1ExpectedResponse fr id name v],
        { acc := [(i, accRecord id name (some args))], content := "" },
        true) := by
  simp [processChunk, finishChunk, handleContent, handleToolDeltas,
    finalizeStream, keptToolCalls, decodeKept, accArgString, orElseStr,
    accRecord, truthyOpt, hid, hname, hfr, hargs, hv, c1ExpectedResponse,
    accFcPart]

/-- Helper: folding string append associates over an appended seed. -/
theorem foldl_append_str (l : List String) : ∀ x y : String,
    List.foldl (fun r s => r ++ s) (x ++ y) l
      = x ++ List.foldl (fun r s => r ++ s) y l := by
  induction l with
  | nil => intro x y; rfl
  | cons s rest ih =>
    intro x y
    show List.foldl (fun r s => r ++ s) ((x ++ y) ++ s) rest = _
    rw [String.append_assoc, ih]
    rfl

/-- Helper: `String.join` peels its head fragment. -/
theorem join_cons (s : String) (l : List String) :
    String.join (s :: l) = s ++ String.join l := by
  show List.foldl (fun r t => r ++ t) ("" ++ s) l = _
  rw [String.empty_append]
  conv_lhs => rw [← String.append_empty s]
  exact foldl_append_str l s ""

/-- Helper: folding fragments relates to their joined concatenation. -/
theorem appendArgs_getD_join (l : List String) (a : Option String) :
    (appendArgs a l).getD "" = a.getD "" ++ String.join l := by
  induction l generalizing a with
  | nil => simp [appendArgs, String.join]
  | cons s srest ih =>
    rw [appendArgs, ih (appendArg a s), join_cons]
    by_cases hs : s = "" <;>
      simp [appendArg, hs, String.append_assoc]

/-- C1: when the argument string of a single tool call is delivered split
across several consecutive delta frames (the first frame carrying the id
and name), the final response emitted after the finish-reason frame
contains that tool call with args equal to the JSON parse of the in-order
concatenation of all the fragments. -/
theorem c1_stream_split_arguments (i : Nat) (id name fr a1 : String)
    (rest : List String) (v : Json)
    (hid : id ≠ "") (hname : name ≠ "") (hfr : fr ≠ "")
    (hparse : jsonParse (String.join (a1 :: rest)) = some v) :
    (runChunks initialStreamState
        (fragChunk i (some id) (some name) a1
          :: (rest.map (fun s => fragChunk i none none s)
              ++ [finishChunk fr]))).1
        = [c1ExpectedResponse fr id name v] ∧
      (runChunks initialStreamState
        (fragChunk i (some id) (some name) a1
          :: (rest.map (fun s => fragChunk i none none s)
              ++ [finishChunk fr]))).2.2 = true := by
  have hempty : jsonParse "" = none := rfl
  have hjoin2 : (appendArgs (appendArg none a1) rest).getD ""
      = String.join (a1 :: rest) := by
    rw [appendArgs_getD_join rest (appendArg none a1), join_cons]
    by_cases ha : a1 = "" <;> simp [appendArg, ha]
  cases happ : appendArgs (appendArg none a1) rest with
  | none =>
    rw [happ] at hjoin2
    rw [← hjoin2] at hparse
    rw [show (none : Option String).getD "" = "" from rfl, hempty] at hparse
    exact absurd hparse (by simp)
  | some args =>
    rw [happ] at hjoin2
    have hargs_join : args = String.join (a1 :: rest) := hjoin2
    have hargs_ne : args ≠ "" := by
      intro h
      rw [h] at hargs_join
      rw [← hargs_join, hempty] at hparse
      exact absurd hparse (by simp)
    rw [runChunks_cons_false _ _ _ _ _
        (processChunk_first i id name a1 hid hname),
      runChunks_frags, happ,
      runChunks_cons_true _ _ _ _ _
        (processChunk_finish_one i id name fr args v hid hname hfr hargs_ne
          (hargs_join ▸ hparse))]
    exact ⟨rfl, rfl⟩

/-- C1 witness: three fragments of one tool call's JSON arguments are
reassembled and parsed in the final response. -/
theorem c1_stream_split_arguments_witness :
    (runChunks initialStreamState
        (fragChunk 0 (some "call_1") (some "get_weather") "\x7b\"loc\""
          :: ([": \"SF\"", "\x7d"].map (fun s => fragChunk 0 none none s)
              ++ [finishChunk "tool_calls"]))).1
        = [c1ExpectedResponse "tool_calls" "call_1" "get_weather"
            (Json.obj [("loc", Json.str "SF")])] ∧
      (runChunks initialStreamState
        (fragChunk 0 (some "call_1") (some "get_weather") "\x7b\"loc\""
          :: ([": \"SF\"", "\x7d"].map (fun s => fragChunk 0 none none s)
              ++ [finishChunk "tool_calls"]))).2.2 = true :=
  c1_stream_split_arguments 0 "call_1" "get_weather" "tool_calls"
    "\x7b\"loc\"" [": \"SF\"", "\x7d"] (Json.obj [("loc", Json.str "SF")])
    (by decide) (by decide) (by decide) rfl

/-- Helper: membership is preserved by the stable insertion step. -/
theorem mem_insertByLenDesc (z x : List Char) (l : List (List Char)) :
    z ∈ insertByLenDesc x l ↔ z = x ∨ z ∈ l := by
  induction l with
  | nil => simp [insertByLenDesc]
  | cons a tl ih =>
    rw [insertByLenDesc]
    by_cases h : x.length < a.length
    · rw [if_pos h]
      simp only [List.mem_cons, ih]
      tauto
    · rw [if_neg h]
      exact List.mem_cons

/-- Helper: membership is preserved by the longest-first sort. -/
theorem mem_sortByLenDesc (z : List Char) (l : List (List Char)) :
    z ∈ sortByLenDesc l ↔ z ∈ l := by
  induction l with
  | nil => simp [sortByLenDesc]
  | cons a tl ih =>
    rw [sortByLenDesc, mem_insertByLenDesc]
    simp only [List.mem_cons, ih]

/-- Helper: the insertion step preserves the descending-length invariant. -/
theorem sorted_insertByLenDesc (x : List Char) (l : List (List Char))
    (h : l.Pairwise (fun a b => b.length ≤ a.length)) :
    (insertByLenDesc x l).Pairwise (fun a b => b.length ≤ a.length) := by
  induction l with
  | nil => simp [insertByLenDesc]
  | cons a tl ih =>
    rw [List.pairwise_cons] at h
    obtain ⟨ha, htl⟩ := h
    rw [insertByLenDesc]
    by_cases hlt : x.length < a.length
    · rw [if_pos hlt, List.pairwise_cons]
      refine ⟨?_, ih htl⟩
      intro z hz
      rcases (mem_insertByLenDesc z x tl).mp hz with rfl | hz
      · omega
      · exact ha z hz
    · rw [if_neg hlt, List.pairwise_cons]
      refine ⟨?_, List.pairwise_cons.mpr ⟨ha, htl⟩⟩
      intro z hz
      rcases List.mem_cons.mp hz with rfl | hz
      · omega
      · have := ha z hz
        omega

/-- Helper: the longest-first sort is sorted by descending length. -/
theorem sorted_sortByLenDesc (l : List (List Char)) :
    (sortByLenDesc l).Pairwise (fun a b => b.length ≤ a.length) := by
  induction l with
  | nil => simp [sortByLenDesc]
  | cons a tl ih => exact sorted_insertByLenDesc a _ ih

/-- Helper: in a descending-length list, the first element satisfying the
predicate is at least as long as every element satisfying it. -/
theorem find?_max_of_sorted (l : List (List Char)) (p : List Char → Bool)
    (hs : l.Pairwise (fun a b => b.length ≤ a.length)) (c : List Char)
    (hf : l.find? p = some c) :
    ∀ c' ∈ l, p c' = true → c'.length ≤ c.length := by
  induction l with
  | nil => cases hf
  | cons a tl ih =>
    rw [List.pairwise_cons] at hs
    obtain ⟨ha, htl⟩ := hs
    rw [List.find?_cons] at hf
    intro c' hc' hp
    cases hpa : p a with
    | true =>
      rw [hpa] at hf
      injection hf with hf
      subst hf
      rcases List.mem_cons.mp hc' with rfl | hc'
      · exact le_rfl
      · exact ha c' hc'
    | false =>
      rw [hpa] at hf
      rcases List.mem_cons.mp hc' with rfl | hc'
      · rw [hp] at hpa; cases hpa
      · exact ih htl hf c' hc' hp

/-- C7: on inputs with no fenced code block, `extractJsonFromText` returns
a longest string-aware bracket-matched candidate that parses as JSON when
one exists, and returns the trimmed input unchanged when no candidate and
neither fallback strategy validates (the embedding is a total function:
the source never throws on this path).  The two concrete examples of the
claim are included. -/
theorem c7_extract_json :
    (∀ t : String,
      hasFencedCodeBlock (jsTrim t).data = false →
        ((∃ c ∈ pattern3Candidates (jsTrim t).data, validJson c = true) →
          ∃ c, extractJsonFromText t = String.mk c ∧
            c ∈ pattern3Candidates (jsTrim t).data ∧ validJson c = true ∧
            ∀ c' ∈ pattern3Candidates (jsTrim t).data, validJson c' = true →
              c'.length ≤ c.length) ∧
        ((∀ c ∈ pattern3Candidates (jsTrim t).data, validJson c = false) →
          (∀ c, pattern4Candidate (jsTrim t).data = some c →
            validJson c = false) →
          (∀ g, pattern5Group (jsTrim t).data = some g →
            validJson (jsTrim (String.mk g)).data = false) →
          extractJsonFromText t = jsTrim t)) ∧
    extractJsonFromText
        "Invalid \x7bnot json\x7d but valid \x7b\"key\": \"value\"\x7d"
      = "\x7b\"key\": \"value\"\x7d" ∧
    extractJsonFromText "plain text" = "plain text" := by
  refine ⟨?_, by decide, by decide⟩
  intro t hfence
  rw [hasFencedCodeBlock, Bool.or_eq_false_iff] at hfence
  obtain ⟨hp1', hp2'⟩ := hfence
  have hp1 : pattern1Group (jsTrim t).data = none := by
    cases h : pattern1Group (jsTrim t).data with
    | none => rfl
    | some g => rw [h] at hp1'; cases hp1'
  have hp2 : p2Start (jsTrim t).data = none := by
    cases h : p2Start (jsTrim t).data with
    | none => rfl
    | some i => rw [h] at hp2'; cases hp2'
  constructor
  · intro ⟨c0, hc0, hv0⟩
    have hmem : c0 ∈ sortByLenDesc (pattern3Candidates (jsTrim t).data) :=
      (mem_sortByLenDesc _ _).mpr hc0
    have hsome : ((sortByLenDesc
        (pattern3Candidates (jsTrim t).data)).find? validJson).isSome := by
      cases hf : (sortByLenDesc (pattern3Candidates (jsTrim t).data)).find?
          validJson with
      | none =>
        exact absurd hv0 (by simp [List.find?_eq_none.mp hf c0 hmem])
      | some c => rfl
    obtain ⟨c, hc⟩ := Option.isSome_iff_exists.mp hsome
    refine ⟨c, ?_, (mem_sortByLenDesc _ _).mp (List.mem_of_find?_eq_some hc),
      List.find?_some hc, ?_⟩
    · rw [extractJsonFromText, hp1, hp2, hc]
    · intro c' hc' hv'
      exact find?_max_of_sorted _ validJson (sorted_sortByLenDesc _) c hc c'
        ((mem_sortByLenDesc _ _).mpr hc') hv'
  · intro hall h4 h5
    have hnone : (sortByLenDesc
        (pattern3Candidates (jsTrim t).data)).find? validJson = none := by
      rw [List.find?_eq_none]
      intro x hx
      rw [hall x ((mem_sortByLenDesc _ _).mp hx)]
      simp
    rw [extractJsonFromText]
    cases h4c : pattern4Candidate (jsTrim t).data with
    | some c =>
      cases h5c : pattern5Group (jsTrim t).data with
      | some g =>
        simp [hp1, hp2, hnone, extractPatterns456, h4c, h5c, h4 c h4c,
          h5 g h5c]
      | none =>
        simp [hp1, hp2, hnone, extractPatterns456, h4c, h5c, h4 c h4c]
    | none =>
      cases h5c : pattern5Group (jsTrim t).data with
      | some g =>
        simp [hp1, hp2, hnone, extractPatterns456, h4c, h5c, h5 g h5c]
      | none =>
        simp [hp1, hp2, hnone, extractPatterns456, h4c, h5c]

/-- C7 witness: the universal branch applied to a concrete input whose
bracket-matched candidate `[1, 2, 3]` parses. -/
theorem c7_extract_json_witness :
    ∃ c, extractJsonFromText "The items are [1, 2, 3] in the list."
        = String.mk c ∧
      c ∈ pattern3Candidates
        (jsTrim "The items are [1, 2, 3] in the list.").data ∧
      validJson c = true ∧
      ∀ c' ∈ pattern3Candidates
          (jsTrim "The items are [1, 2, 3] in the list.").data,
        validJson c' = true → c'.length ≤ c.length :=
  ((c7_extract_json.1 "The items are [1, 2, 3] in the list."
    (by decide)).1 (by decide))

/-- C10 witness: the amended theorem applied to the concrete mixed turn. -/
theorem c10_mixed_turn_single_message_witness :
    ∃ m : OpenAILikeMessage,
      convertToOpenAIMessages 3 ([] ++ mixedFcFrTurn :: []) =
        convertToOpenAIMessages 3 []
          ++ m :: convertToOpenAIMessages 3 [] ∧
      m.role = mapRole mixedFcFrTurn.role ∧
      m.tool_calls = some ((fcParts (mixedFcFrTurn.parts.getD [])).enum.map
        (fun pr => mkReqToolCall 3 pr.1 pr.2)) ∧
      m.tool_call_id = none :=
  c10_mixed_turn_single_message 3 [] [] mixedFcFrTurn (by decide) (by decide)

end Gem
